import Mathlib

/-!
Verification of the OSSMNF team-balancing engine.

A shallow embedding, in Lean 4, of the team-balancing core of the OSSMNF
repository:

* `src/utils/calculations.ts` — `calculateOVR`, `generateBalancedTeams`
  (the "Draft Allocator"), `applyTeamConstraints`;
* `src/utils/teamAlgorithms.ts` — `calculateFairnessScore`,
  `generateSwap`, `generateConstraintOptimizedTeams` (the "Annealed
  Optimizer"), and the two historical variants of
  `generateILPOptimizedTeams` (one delegates to the annealed optimizer,
  the other calls an external 0/1-LP solver and falls back on failure).

Modelling conventions:

* JavaScript numbers are embedded as rationals (`ℚ`); `Math.round` is
  Mathlib's `round` (both round half toward +∞), `Math.abs` is `|·|`.
* `Math.random()`-derived choices are passed in explicitly: captain
  indices, per-iteration annealing choices, and raw index-draw streams.
  A JS draw `Math.floor(Math.random() * len)` always lands in
  `[0, len)`; theorems carry that bound as a hypothesis where it
  matters.
* Thrown exceptions are `Except String`; the external LP solver is an
  explicit `SolverOutcome` parameter (the solver library is not part of
  the repository).
* Mutation of arrays in place becomes explicit state passing;
  `arr.push` is `++ [·]`, `arr.pop` is `dropLast`/`getLastD`,
  element assignment is `List.set`, and JS `Array.prototype.sort`
  (stable) is `List.mergeSort`.
-/

/-- Embeds `type Position = 'DEF' | 'ATT' | 'ALR'` from `src/types/index.ts`. -/
inductive Position where
  | DEF : Position
  | ATT : Position
  | ALR : Position
deriving DecidableEq, Repr

/-- The `Player` interface from `src/types/index.ts`, restricted to the
fields the team-balancing core reads (the `createdAt`/`updatedAt`
timestamps are never consulted by the core and are omitted). -/
structure Player where
  id : String
  name : String
  photoUrl : String
  fitness : ℚ
  defence : ℚ
  attack : ℚ
  ballUse : ℚ
  position : Position
  ovr : ℚ
deriving DecidableEq, Repr

/-- Embeds `interface TeamPlayer extends Player { isCaptain: boolean }`. -/
structure TeamPlayer extends Player where
  isCaptain : Bool
deriving DecidableEq, Repr

instance : Inhabited TeamPlayer :=
  ⟨{ id := "", name := "", photoUrl := "", fitness := 0, defence := 0,
     attack := 0, ballUse := 0, position := Position.ALR, ovr := 0,
     isCaptain := false }⟩

/-- Embeds `{ ...player, isCaptain: false }`. -/
def mkTeamPlayer (p : Player) : TeamPlayer :=
  { p with isCaptain := false }

/-- Embeds `Math.round(x * 10) / 10` — round to one decimal place. -/
def roundTenth (x : ℚ) : ℚ :=
  (round (x * 10) : ℤ) / 10

/-- Embeds `calculateOVR` from `src/utils/calculations.ts`. -/
def calculateOVR (fitness defence attack ballUse : ℚ) (position : Position) : ℚ :=
  let adjusted : ℚ × ℚ :=
    match position with
    | Position.DEF => (defence * (115/100), attack * (85/100))
    | Position.ATT => (defence * (85/100), attack * (115/100))
    | Position.ALR => (defence, attack)
  let adjustedDefence := adjusted.1
  let adjustedAttack := adjusted.2
  let ovr := fitness * (35/100) + adjustedDefence * (25/100)
    + adjustedAttack * (20/100) + ballUse * (20/100)
  roundTenth ovr

/-- Embeds `round1` exactly as the specification words it: round to one decimal
place. -/
def round1Spec (x : ℚ) : ℚ :=
  (round (x * 10) : ℤ) / 10

/-- The OVR formula exactly as the specification words it:
`ovr = round1( fitness*0.35 + adjDefence*0.25 + adjAttack*0.20 + ballUse*0.20 )`
where DEF boosts defence by 1.15x and discounts attack by 0.85x, ATT is
the mirror, and ALR applies no adjustment. -/
def calculateOVRSpec (fitness defence attack ballUse : ℚ) (position : Position) : ℚ :=
  let adjDefence : ℚ :=
    match position with
    | Position.DEF => defence * (115/100)
    | Position.ATT => defence * (85/100)
    | Position.ALR => defence
  let adjAttack : ℚ :=
    match position with
    | Position.DEF => attack * (85/100)
    | Position.ATT => attack * (115/100)
    | Position.ALR => attack
  round1Spec (fitness * (35/100) + adjDefence * (25/100)
    + adjAttack * (20/100) + ballUse * (20/100))

/-- Embeds `[...players].sort((a, b) => b.ovr - a.ovr)` — a stable sort placing
higher `ovr` first.  JS `Array.prototype.sort` is stable, and a stable
sort's output is uniquely determined by the comparator, so the stable
`List.insertionSort` embeds it faithfully. -/
def sortByOvrDesc (players : List Player) : List Player :=
  players.insertionSort (fun a b => b.ovr ≤ a.ovr)

/-- Stable descending-`ovr` sort on `TeamPlayer` lists
(`[...team].sort((a, b) => b.ovr - a.ovr)`). -/
def sortTeamByOvrDesc (team : List TeamPlayer) : List TeamPlayer :=
  team.insertionSort (fun a b => b.ovr ≤ a.ovr)

/-- One step of the `positionPlayers.forEach((player, index) => ...)`
body inside `distributePosition`: push onto red on even indices (white
if red is full), onto white on odd indices (red if white is full). -/
def distribStep (teamSize : Nat) (index : Nat) (player : Player)
    (rw : List TeamPlayer × List TeamPlayer) : List TeamPlayer × List TeamPlayer :=
  let teamPlayer := mkTeamPlayer player
  if index % 2 = 0 then
    if rw.1.length < teamSize then (rw.1 ++ [teamPlayer], rw.2)
    else (rw.1, rw.2 ++ [teamPlayer])
  else
    if rw.2.length < teamSize then (rw.1, rw.2 ++ [teamPlayer])
    else (rw.1 ++ [teamPlayer], rw.2)

/-- The `forEach` traversal of `distributePosition`, carrying the
running index. -/
def distribGo (teamSize : Nat) : Nat → List Player →
    List TeamPlayer × List TeamPlayer → List TeamPlayer × List TeamPlayer
  | _, [], rw => rw
  | index, p :: ps, rw =>
      distribGo teamSize (index + 1) ps (distribStep teamSize index p rw)

/-- Embeds `distributePosition` from `generateBalancedTeams`: sort the bucket
by `ovr` descending, then alternate pushes between the two teams. -/
def distributePosition (teamSize : Nat) (positionPlayers : List Player)
    (rw : List TeamPlayer × List TeamPlayer) : List TeamPlayer × List TeamPlayer :=
  distribGo teamSize 0 (sortByOvrDesc positionPlayers) rw

/-- Body of `while (src.length > teamSize) { dst.push(src.pop()!) }`,
with a fuel argument standing in for the loop's (always sufficient)
trip count: each trip pops the last element of `src` onto `dst`. -/
def moveExcessGo (teamSize : Nat) : Nat → List TeamPlayer → List TeamPlayer →
    List TeamPlayer × List TeamPlayer
  | 0, src, dst => (src, dst)
  | fuel + 1, src, dst =>
      if teamSize < src.length then
        moveExcessGo teamSize fuel src.dropLast (dst ++ [src.getLastD default])
      else (src, dst)

/-- Embeds `while (src.length > teamSize) { dst.push(src.pop()!) }` — the
team-size rebalancing loops of `generateBalancedTeams`.  The loop pops
one element per trip, so `src.length` fuel always suffices. -/
def moveExcess (teamSize : Nat) (src dst : List TeamPlayer) :
    List TeamPlayer × List TeamPlayer :=
  moveExcessGo teamSize src.length src dst

/-- Sum of `ovr` over a team: `team.reduce((sum, p) => sum + p.ovr, 0)`. -/
def sumOvr (team : List TeamPlayer) : ℚ :=
  team.foldl (fun sum p => sum + p.ovr) 0

/-- Inner `for (let j ...)` loop of the fine-tuning phase: scan the
white team for the first player whose swap with `redPlayer` strictly
reduces the OVR gap. -/
def findSwapInner (redOvr whiteOvr currentDiff : ℚ) (redPlayer : TeamPlayer) :
    Nat → List TeamPlayer → Option Nat
  | _, [] => none
  | j, wp :: rest =>
      let newRedOvr := redOvr - redPlayer.ovr + wp.ovr
      let newWhiteOvr := whiteOvr - wp.ovr + redPlayer.ovr
      if |newRedOvr - newWhiteOvr| < currentDiff then some j
      else findSwapInner redOvr whiteOvr currentDiff redPlayer (j + 1) rest

/-- Outer `for (let i ...)` loop of the fine-tuning phase: find the
first (red index, white index) pair whose swap strictly reduces the
OVR gap. -/
def findSwapOuter (redOvr whiteOvr currentDiff : ℚ) (white : List TeamPlayer) :
    Nat → List TeamPlayer → Option (Nat × Nat)
  | _, [] => none
  | i, rp :: rest =>
      match findSwapInner redOvr whiteOvr currentDiff rp 0 white with
      | some j => some (i, j)
      | none => findSwapOuter redOvr whiteOvr currentDiff white (i + 1) rest

/-- One pass of the fine-tuning scan: compute the pass-start totals and
look for the first strictly-improving swap pair. -/
def findImprovingPair (red white : List TeamPlayer) : Option (Nat × Nat) :=
  let redOvr := sumOvr red
  let whiteOvr := sumOvr white
  let currentDiff := |redOvr - whiteOvr|
  findSwapOuter redOvr whiteOvr currentDiff white 0 red

/-- Swap the elements at `i` of `red` and `j` of `white`
(`[red[i], white[j]] = [white[j], red[i]]`, the destructuring swap used
by the fine-tuning phase, `generateSwap` and `applyTeamConstraints`). -/
def swapAt (red white : List TeamPlayer) (i j : Nat) :
    List TeamPlayer × List TeamPlayer :=
  (red.set i (white.getD j default), white.set j (red.getD i default))

/-- The `while (improved && iterations < maxIterations)` fine-tuning
loop of `generateBalancedTeams`: each pass swaps the first
strictly-improving pair and restarts, stopping when no pair improves or
after `fuel` (= 100) passes. -/
def fineTune : Nat → List TeamPlayer × List TeamPlayer →
    List TeamPlayer × List TeamPlayer
  | 0, rw => rw
  | fuel + 1, (red, white) =>
      match findImprovingPair red white with
      | none => (red, white)
      | some (i, j) => fineTune fuel (swapAt red white i j)

/-- Embeds `team[index].isCaptain = true` (a JS element-field assignment; the
index produced by `Math.floor(Math.random() * team.length)` is always in
range for a nonempty team). -/
def setCaptain (team : List TeamPlayer) (index : Nat) : List TeamPlayer :=
  match team[index]? with
  | some p => team.set index { p with isCaptain := true }
  | none => team

/-- Embeds `name.toLowerCase()` — embedded structurally as a character-wise
lowercase map (the names the code compares with are plain ASCII). -/
def lowerName (s : String) : String :=
  String.mk (s.data.map Char.toLower)

/-- Embeds `p.name.toLowerCase() === 'jay'` from `applyTeamConstraints`. -/
def matchA (p : TeamPlayer) : Bool :=
  lowerName p.name == "jay"

/-- Embeds `p.name.toLowerCase() === 'dman'` from `applyTeamConstraints`. -/
def matchB (p : TeamPlayer) : Bool :=
  lowerName p.name == "dman"

/-- Embeds `applyTeamConstraints` from `src/utils/calculations.ts`: if the
players named (case-insensitively) `jay` and `dman` ended up on the same
team, swap `dman` with the first player on the other team named
neither; then, if `jay` is on the red team, swap the teams wholesale. -/
def applyTeamConstraints (red white : List TeamPlayer) :
    List TeamPlayer × List TeamPlayer :=
  let r := red
  let w := white
  let step1 : List TeamPlayer × List TeamPlayer :=
    if (r.findIdx? matchA).isSome && (r.findIdx? matchB).isSome then
      match r.findIdx? matchB, w.findIdx? (fun p => !matchA p && !matchB p) with
      | some bR, some si => swapAt r w bR si
      | _, _ => (r, w)
    else if (w.findIdx? matchA).isSome && (w.findIdx? matchB).isSome then
      match w.findIdx? matchB, r.findIdx? (fun p => !matchA p && !matchB p) with
      | some bW, some si => swapAt r w si bW
      | _, _ => (r, w)
    else (r, w)
  if step1.1.any matchA then (step1.2, step1.1) else step1

/-- Embeds `generateBalancedTeams` from `src/utils/calculations.ts` (the
"Draft Allocator"), with the two random captain indices passed in
explicitly. -/
def generateBalancedTeams (players : List Player) (teamSize : Nat)
    (redCaptainIndex whiteCaptainIndex : Nat) :
    Except String (List TeamPlayer × List TeamPlayer) :=
  if players.length < teamSize * 2 then
    Except.error s!"Need at least {teamSize * 2} players for {teamSize}v{teamSize}"
  else
    let sortedPlayers := sortByOvrDesc players
    let selectedPlayers := sortedPlayers.take (teamSize * 2)
    let defenders := selectedPlayers.filter (fun p => p.position = Position.DEF)
    let attackers := selectedPlayers.filter (fun p => p.position = Position.ATT)
    let allRounders := selectedPlayers.filter (fun p => p.position = Position.ALR)
    let rw0 := distributePosition teamSize defenders ([], [])
    let rw1 := distributePosition teamSize attackers rw0
    let rw2 := distributePosition teamSize allRounders rw1
    let rw3 := moveExcess teamSize rw2.1 rw2.2
    let rw4 :=
      let moved := moveExcess teamSize rw3.2 rw3.1
      (moved.2, moved.1)
    let tuned := fineTune 100 rw4
    let redTeam := setCaptain tuned.1 redCaptainIndex
    let whiteTeam := setCaptain tuned.2 whiteCaptainIndex
    Except.ok (applyTeamConstraints redTeam whiteTeam)

/-- The per-metric weight vector.  The `weights` member of
`AlgorithmConfig` is a partial record (its type declaration lives in the
repository's `src/types/index.ts`; `DEFAULT_CONFIG` is typed
`Required<AlgorithmConfig>` and the code merges
`{ ...DEFAULT_CONFIG.weights, ...config.weights }` field by field), so
every field is optional here and `none` means "use the default". -/
structure WeightsOverride where
  ovr : Option ℚ := none
  fitness : Option ℚ := none
  attack : Option ℚ := none
  defence : Option ℚ := none
  ballUse : Option ℚ := none
  topHeaviness : Option ℚ := none
  positionViolation : Option ℚ := none
deriving DecidableEq, Repr

/-- A fully-resolved weight vector (after merging with defaults). -/
structure Weights where
  ovr : ℚ
  fitness : ℚ
  attack : ℚ
  defence : ℚ
  ballUse : ℚ
  topHeaviness : ℚ
  positionViolation : ℚ
deriving DecidableEq, Repr

/-- Partial per-position minimum counts, mirroring the optional
`minPositions` member of `AlgorithmConfig`. -/
structure MinPositionsOverride where
  DEF : Option Nat := none
  ATT : Option Nat := none
  ALR : Option Nat := none
deriving DecidableEq, Repr

/-- Fully-resolved per-position minimum counts. -/
structure MinPositions where
  DEF : Nat
  ATT : Nat
  ALR : Nat
deriving DecidableEq, Repr

/-- Embeds `DEFAULT_CONFIG.weights` from `src/utils/teamAlgorithms.ts`. -/
def defaultWeights : Weights :=
  { ovr := 1, fitness := 8/10, attack := 6/10, defence := 6/10,
    ballUse := 5/10, topHeaviness := 7/10, positionViolation := 10 }

/-- Embeds `DEFAULT_CONFIG.minPositions = { DEF: 1, ATT: 1, ALR: 0 }`. -/
def defaultMinPositions : MinPositions :=
  { DEF := 1, ATT := 1, ALR := 0 }

/-- Embeds `DEFAULT_CONFIG.weights` viewed as an override record with every
field present (the shape `{ ...DEFAULT_CONFIG, ...config }` produces
when the caller supplies no `weights`). -/
def defaultWeightsOverride : WeightsOverride :=
  { ovr := some 1, fitness := some (8/10), attack := some (6/10),
    defence := some (6/10), ballUse := some (5/10),
    topHeaviness := some (7/10), positionViolation := some 10 }

/-- Embeds `DEFAULT_CONFIG.minPositions` viewed as an override record with
every field present. -/
def defaultMinPositionsOverride : MinPositionsOverride :=
  { DEF := some 1, ATT := some 1, ALR := some 0 }

/-- Embeds `AlgorithmConfig` (all members optional; the TS interface
declaration lives in `src/types/index.ts`, its shape fixed by
`Required<AlgorithmConfig>` and the field-by-field spreads in
`teamAlgorithms.ts`). -/
structure AlgorithmConfig where
  maxIterations : Option Nat := none
  temperature : Option ℚ := none
  coolingRate : Option ℚ := none
  minPositions : Option MinPositionsOverride := none
  weights : Option WeightsOverride := none
deriving DecidableEq, Repr

/-- Embeds `{ ...DEFAULT_CONFIG.weights, ...config.weights }` — field-by-field
merge of the caller's partial weight vector over the defaults. -/
def mergeWeights (cw : Option WeightsOverride) : Weights :=
  let o := cw.getD {}
  { ovr := o.ovr.getD defaultWeights.ovr,
    fitness := o.fitness.getD defaultWeights.fitness,
    attack := o.attack.getD defaultWeights.attack,
    defence := o.defence.getD defaultWeights.defence,
    ballUse := o.ballUse.getD defaultWeights.ballUse,
    topHeaviness := o.topHeaviness.getD defaultWeights.topHeaviness,
    positionViolation := o.positionViolation.getD defaultWeights.positionViolation }

/-- Embeds `{ ...DEFAULT_CONFIG.minPositions, ...config.minPositions }`. -/
def mergeMinPositions (cm : Option MinPositionsOverride) : MinPositions :=
  let o := cm.getD {}
  { DEF := o.DEF.getD defaultMinPositions.DEF,
    ATT := o.ATT.getD defaultMinPositions.ATT,
    ALR := o.ALR.getD defaultMinPositions.ALR }

/-- Embeds `mergedConfig = { ...DEFAULT_CONFIG, ...config }` — the top-level
shallow merge: each present member of `config` replaces the default
member wholesale (in particular a partial `weights` object replaces the
default weights object and is only completed field-by-field later,
inside `calculateFairnessScore`). -/
structure MergedConfig where
  maxIterations : Nat
  temperature : ℚ
  coolingRate : ℚ
  minPositions : MinPositionsOverride
  weights : WeightsOverride
deriving DecidableEq, Repr

/-- Embeds `DEFAULT_CONFIG` scalar members: `maxIterations: 500`,
`temperature: 10`, `coolingRate: 0.98`. -/
def mergeConfig (config : AlgorithmConfig) : MergedConfig :=
  { maxIterations := config.maxIterations.getD 500,
    temperature := config.temperature.getD 10,
    coolingRate := config.coolingRate.getD (98/100),
    minPositions := config.minPositions.getD defaultMinPositionsOverride,
    weights := config.weights.getD defaultWeightsOverride }

/-- A `MergedConfig` viewed again as an `AlgorithmConfig` (every member
present) — the shape in which `generateConstraintOptimizedTeams` passes
its merged config down to `calculateFairnessScore`. -/
def MergedConfig.toConfig (m : MergedConfig) : AlgorithmConfig :=
  { maxIterations := some m.maxIterations,
    temperature := some m.temperature,
    coolingRate := some m.coolingRate,
    minPositions := some m.minPositions,
    weights := some m.weights }

/-- Embeds `FairnessMetrics` from the repository's types: the seven
imbalance metrics of a two-team split. -/
structure FairnessMetrics where
  ovrDiff : ℚ
  fitnessDiff : ℚ
  attackDiff : ℚ
  defenceDiff : ℚ
  ballUseDiff : ℚ
  topHeavinessDiff : ℚ
  positionViolations : Nat
deriving DecidableEq, Repr

/-- Embeds `sumAttr` specialised over an attribute projection:
`team.reduce((sum, p) => sum + p[attr], 0)`. -/
def sumAttr (team : List TeamPlayer) (attr : TeamPlayer → ℚ) : ℚ :=
  team.foldl (fun sum p => sum + attr p) 0

/-- Embeds `calculateTopHeaviness` from `src/utils/teamAlgorithms.ts`:
`topCount = min(3, floor(redTeam.length / 2))`; sum the `topCount`
highest-`ovr` players of each team and take the absolute difference. -/
def calculateTopHeaviness (redTeam whiteTeam : List TeamPlayer) : ℚ :=
  let topCount := min 3 (redTeam.length / 2)
  let getTopSum := fun (team : List TeamPlayer) =>
    ((sortTeamByOvrDesc team).take topCount).foldl (fun sum p => sum + p.ovr) 0
  |getTopSum redTeam - getTopSum whiteTeam|

/-- Per-team position counts (`counts` in `countPositionViolations`). -/
def countPosition (team : List TeamPlayer) (pos : Position) : Nat :=
  team.countP (fun p => p.position = pos)

/-- Embeds `countPositionViolations` from `src/utils/teamAlgorithms.ts`: total
shortfall of each team's per-position counts against the minimums. -/
def countPositionViolations (redTeam whiteTeam : List TeamPlayer)
    (minPositions : MinPositions) : Nat :=
  let teamViolations := fun (team : List TeamPlayer) =>
    (if countPosition team Position.DEF < minPositions.DEF then
      minPositions.DEF - countPosition team Position.DEF else 0)
    + (if countPosition team Position.ATT < minPositions.ATT then
      minPositions.ATT - countPosition team Position.ATT else 0)
    + (if countPosition team Position.ALR < minPositions.ALR then
      minPositions.ALR - countPosition team Position.ALR else 0)
  teamViolations redTeam + teamViolations whiteTeam

/-- Embeds `calculateFairnessScore` from `src/utils/teamAlgorithms.ts`
(identical in both shipped versions of the file): the seven metrics and
their weighted sum; lower = more balanced. -/
def calculateFairnessScore (redTeam whiteTeam : List TeamPlayer)
    (config : AlgorithmConfig) : ℚ × FairnessMetrics :=
  let weights := mergeWeights config.weights
  let minPositions := mergeMinPositions config.minPositions
  let metrics : FairnessMetrics :=
    { ovrDiff := |sumAttr redTeam (·.ovr) - sumAttr whiteTeam (·.ovr)|,
      fitnessDiff := |sumAttr redTeam (·.fitness) - sumAttr whiteTeam (·.fitness)|,
      attackDiff := |sumAttr redTeam (·.attack) - sumAttr whiteTeam (·.attack)|,
      defenceDiff := |sumAttr redTeam (·.defence) - sumAttr whiteTeam (·.defence)|,
      ballUseDiff := |sumAttr redTeam (·.ballUse) - sumAttr whiteTeam (·.ballUse)|,
      topHeavinessDiff := calculateTopHeaviness redTeam whiteTeam,
      positionViolations := countPositionViolations redTeam whiteTeam minPositions }
  let score :=
    metrics.ovrDiff * weights.ovr
    + metrics.fitnessDiff * weights.fitness
    + metrics.attackDiff * weights.attack
    + metrics.defenceDiff * weights.defence
    + metrics.ballUseDiff * weights.ballUse
    + metrics.topHeavinessDiff * weights.topHeaviness
    + (metrics.positionViolations : ℚ) * weights.positionViolation
  (score, metrics)

/-- The random data consumed by one simulated-annealing iteration.
`oneForOne` is the outcome of `Math.random() < 0.8`; the four indices
are the outcomes of the `Math.floor(Math.random() * length)` draws
(after the 2-for-2 rejection loops, for `rIdx2`/`wIdx2`); `accept` is
the outcome of the Metropolis coin `Math.random() < exp(-delta/T)`
drawn when the neighbor is not strictly better. -/
structure AnnealChoice where
  oneForOne : Bool
  rIdx1 : Nat
  wIdx1 : Nat
  rIdx2 : Nat
  wIdx2 : Nat
  accept : Bool
deriving DecidableEq, Repr

/-- The in-range/distinctness facts that every outcome of the code's
random draws satisfies: each index is below the team length, and the
2-for-2 second indices differ from the first ones whenever the
rejection loop could enforce it (team length > 1) — assuming that loop
terminated (see `rejectionDraw` for the loop itself). -/
def ValidChoice (redLen whiteLen : Nat) (c : AnnealChoice) : Prop :=
  c.rIdx1 < redLen ∧ c.wIdx1 < whiteLen ∧
  (c.oneForOne = false →
    c.rIdx2 < redLen ∧ c.wIdx2 < whiteLen ∧
    (1 < redLen → c.rIdx2 ≠ c.rIdx1) ∧ (1 < whiteLen → c.wIdx2 ≠ c.wIdx1))

/-- Embeds `generateSwap` from `src/utils/teamAlgorithms.ts`, with the random
index draws supplied by the `AnnealChoice`:  a 1-for-1 swap exchanges
one random player of each team; a 2-for-2 swap exchanges two
index-distinct pairs in sequence. -/
def generateSwap (red white : List TeamPlayer) (c : AnnealChoice) :
    List TeamPlayer × List TeamPlayer :=
  if c.oneForOne then
    swapAt red white c.rIdx1 c.wIdx1
  else
    let first := swapAt red white c.rIdx1 c.wIdx1
    swapAt first.1 first.2 c.rIdx2 c.wIdx2

/-- The 2-for-2 index rejection loop of `generateSwap`
(`let idx2 = draw(); while (idx2 === idx1 && len > 1) idx2 = draw();`),
with the stream of raw draws made explicit and a fuel bound standing in
for the (unbounded) number of loop trips: `none` means the loop has not
terminated within `fuel` redraws. -/
def rejectionDraw : Nat → (Nat → Nat) → Nat → Nat → Nat → Option Nat
  | 0, _, _, _, _ => none
  | fuel + 1, draws, k, firstIdx, len =>
      let candidate := draws k
      if candidate = firstIdx ∧ 1 < len then
        rejectionDraw fuel draws (k + 1) firstIdx len
      else some candidate

/-- The rejection loop terminates on the draw stream `draws`
(starting at stream position 0). -/
def RejectionTerminates (draws : Nat → Nat) (firstIdx len : Nat) : Prop :=
  ∃ fuel, (rejectionDraw fuel draws 0 firstIdx len).isSome

/-- Embeds `assignRandomCaptains` from `src/utils/teamAlgorithms.ts`: clear
every captain flag, then set one random index per team. -/
def assignRandomCaptains (red white : List TeamPlayer) (ri wi : Nat) :
    List TeamPlayer × List TeamPlayer :=
  (setCaptain (red.map (fun p => { p with isCaptain := false })) ri,
   setCaptain (white.map (fun p => { p with isCaptain := false })) wi)

/-- The mutable locals of the simulated-annealing loop in
`generateConstraintOptimizedTeams`. -/
structure AnnealState where
  currentRed : List TeamPlayer
  currentWhite : List TeamPlayer
  currentScore : ℚ
  bestRed : List TeamPlayer
  bestWhite : List TeamPlayer
  bestScore : ℚ
  temperature : ℚ
  iterations : Nat
deriving DecidableEq, Repr

/-- One iteration of the annealing loop: generate a neighbor, score
it, accept strictly-better neighbors (or worse ones when the Metropolis
coin says so), snapshot new bests, cool, and count the iteration. -/
def annealStep (m : MergedConfig) (c : AnnealChoice) (s : AnnealState) : AnnealState :=
  let swapped := generateSwap s.currentRed s.currentWhite c
  let newScore := (calculateFairnessScore swapped.1 swapped.2 m.toConfig).1
  let delta := newScore - s.currentScore
  let accepted :=
    if delta < 0 ∨ c.accept then
      let moved := { s with currentRed := swapped.1, currentWhite := swapped.2,
                            currentScore := newScore }
      if newScore < s.bestScore then
        { moved with bestRed := swapped.1, bestWhite := swapped.2,
                     bestScore := newScore }
      else moved
    else s
  { accepted with temperature := accepted.temperature * m.coolingRate,
                  iterations := accepted.iterations + 1 }

/-- Embeds `while (iterations < maxIterations && temperature > minTemperature)`
with `minTemperature = 0.01`; the fuel is `maxIterations - iterations`,
so the loop runs at most `maxIterations` times. -/
def annealLoop (m : MergedConfig) (choices : Nat → AnnealChoice) :
    Nat → AnnealState → AnnealState
  | 0, s => s
  | fuel + 1, s =>
      if (1/100 : ℚ) < s.temperature then
        annealLoop m choices fuel (annealStep m (choices s.iterations) s)
      else s

/-- The metadata of a `TeamGenerationResult` (the wall-clock `timeMs`
member is not modelled; the ILP success path carries no `iterations`
member, hence the `Option`). -/
structure GenMetadata where
  algorithm : String
  fairnessScore : ℚ
  iterations : Option Nat
deriving DecidableEq, Repr

/-- Embeds `TeamGenerationResult` from the repository's types. -/
structure TeamGenerationResult where
  redTeam : List TeamPlayer
  whiteTeam : List TeamPlayer
  metadata : GenMetadata
deriving DecidableEq, Repr

/-- Embeds `generateConstraintOptimizedTeams` from
`src/utils/teamAlgorithms.ts` (the "Annealed Optimizer"): seed with the
Draft Allocator, simulated-anneal the fairness score, return the
best-ever snapshot with fresh random captains.  Random data is explicit:
`seedCapR`/`seedCapW` are the seed's captain draws, `choices` the
per-iteration annealing draws, `capR`/`capW` the final captain draws. -/
def generateConstraintOptimizedTeams (players : List Player) (teamSize : Nat)
    (config : AlgorithmConfig) (seedCapR seedCapW : Nat)
    (choices : Nat → AnnealChoice) (capR capW : Nat) :
    Except String TeamGenerationResult :=
  let m := mergeConfig config
  match generateBalancedTeams players teamSize seedCapR seedCapW with
  | Except.error e => Except.error e
  | Except.ok (redTeam, whiteTeam) =>
      let initialScore := (calculateFairnessScore redTeam whiteTeam m.toConfig).1
      let s0 : AnnealState :=
        { currentRed := redTeam, currentWhite := whiteTeam,
          currentScore := initialScore,
          bestRed := redTeam, bestWhite := whiteTeam, bestScore := initialScore,
          temperature := m.temperature, iterations := 0 }
      let sF := annealLoop m choices m.maxIterations s0
      let teams := assignRandomCaptains sF.bestRed sF.bestWhite capR capW
      Except.ok
        { redTeam := teams.1, whiteTeam := teams.2,
          metadata := { algorithm := "constraint-opt",
                        fairnessScore := sF.bestScore,
                        iterations := some sF.iterations } }

namespace AnnealOnly

/-- The `generateILPOptimizedTeams` variant shipped in the
annealing-only version of `src/utils/teamAlgorithms.ts` (the "Total
Football Optimizer"): it runs the constraint optimizer with enhanced
parameters (`maxIterations: 1000`, `temperature: 15`,
`coolingRate: 0.99`) and relabels the result's metadata as
`'ilp-solver'`. -/
def generateILPOptimizedTeams (players : List Player) (teamSize : Nat)
    (config : AlgorithmConfig) (seedCapR seedCapW : Nat)
    (choices : Nat → AnnealChoice) (capR capW : Nat) :
    Except String TeamGenerationResult :=
  let enhancedConfig : AlgorithmConfig :=
    { config with maxIterations := some 1000, temperature := some 15,
                  coolingRate := some (99/100) }
  match generateConstraintOptimizedTeams players teamSize enhancedConfig
      seedCapR seedCapW choices capR capW with
  | Except.error e => Except.error e
  | Except.ok result =>
      Except.ok
        { result with
          metadata := { result.metadata with algorithm := "ilp-solver" } }

end AnnealOnly

/-- What the external 0/1-LP solver (`javascript-lp-solver`, not part of
this repository) can report back to `generateILPOptimizedTeams`:
a feasible assignment (`results[\x7bx i\x7d]`, `none` standing for a
missing / non-number value, which the code coerces to `0`), an
infeasible model, or a thrown exception. -/
inductive SolverOutcome where
  | success (assignment : Nat → Option ℚ) : SolverOutcome
  | infeasible : SolverOutcome
  | solverFailure : SolverOutcome

/-- Embeds `generateILPOptimizedTeams` from the solver-backed version of
`src/utils/teamAlgorithms.ts`.  The construction of the ILP model
(`buildILPModel` together with the minimum-position pre-adjustment) only
feeds the external solver and is abstracted into the `SolverOutcome`
parameter; everything the function does with the solver's answer is
modelled.  On success, candidates are sorted by raw assignment value
descending and the top `teamSize` become the red team; on infeasibility
or a solver exception the function falls back to
`generateConstraintOptimizedTeams` on the full player set with the
caller's original config (both the in-`try` fallback and the `catch`
fallback perform this same call, so a failure of the fallback itself
propagates either way). -/
def generateILPOptimizedTeams (players : List Player) (teamSize : Nat)
    (config : AlgorithmConfig) (outcome : SolverOutcome) (capR capW : Nat)
    (fbSeedCapR fbSeedCapW : Nat) (fbChoices : Nat → AnnealChoice)
    (fbCapR fbCapW : Nat) : Except String TeamGenerationResult :=
  let m := mergeConfig config
  let sortedPlayers := sortByOvrDesc players
  let selectedPlayers := sortedPlayers.take (teamSize * 2)
  match outcome with
  | SolverOutcome.infeasible =>
      generateConstraintOptimizedTeams players teamSize config
        fbSeedCapR fbSeedCapW fbChoices fbCapR fbCapW
  | SolverOutcome.solverFailure =>
      generateConstraintOptimizedTeams players teamSize config
        fbSeedCapR fbSeedCapW fbChoices fbCapR fbCapW
  | SolverOutcome.success assignment =>
      let playerScores :=
        selectedPlayers.enum.map (fun iv => (iv.2, (assignment iv.1).getD 0))
      let sortedScores :=
        playerScores.insertionSort (fun a b => b.2 ≤ a.2)
      let redTeam := (sortedScores.take teamSize).map (fun pc => mkTeamPlayer pc.1)
      let whiteTeam := (sortedScores.drop teamSize).map (fun pc => mkTeamPlayer pc.1)
      let teams := assignRandomCaptains redTeam whiteTeam capR capW
      let score := (calculateFairnessScore teams.1 teams.2 m.toConfig).1
      Except.ok
        { redTeam := teams.1, whiteTeam := teams.2,
          metadata := { algorithm := "ilp-solver", fairnessScore := score,
                        iterations := none } }

/-! Preservation lemmas for the embedded list operations. -/

/-- The gap of a potential `(redPlayer, whitePlayer)` swap as the code
computes it mid-pass. -/
def swapGap (redOvr whiteOvr : ℚ) (rp wp : TeamPlayer) : ℚ :=
  |redOvr - rp.ovr + wp.ovr - (whiteOvr - wp.ovr + rp.ovr)|

/-- Spec wording, §4.1 step 2: sum the `k` highest-`ovr` players of a
team (sort descending, take top `k`). -/
def topSumSpec (team : List TeamPlayer) (k : Nat) : ℚ :=
  ((sortTeamByOvrDesc team).take k).foldl (fun sum p => sum + p.ovr) 0

/-- Spec wording, §4.1 step 3: a team's total position shortfall,
`Σ_pos max(0, minRequired − actualCount)` (truncated `Nat` subtraction
is exactly `max(0, ·)`). -/
def positionShortfallSpec (team : List TeamPlayer) (minP : MinPositions) : Nat :=
  (minP.DEF - countPosition team Position.DEF)
  + (minP.ATT - countPosition team Position.ATT)
  + (minP.ALR - countPosition team Position.ALR)

def alphaPlayer : Player :=
  { id := "a", name := "Alpha", photoUrl := "", fitness := 5, defence := 5,
    attack := 5, ballUse := 5, position := Position.ALR, ovr := 5 }

def betaPlayer : Player :=
  { id := "b", name := "Beta", photoUrl := "", fitness := 4, defence := 4,
    attack := 4, ballUse := 4, position := Position.ALR, ovr := 4 }

def jayPlayer : Player :=
  { id := "p1", name := "Jay", photoUrl := "", fitness := 5, defence := 5,
    attack := 5, ballUse := 5, position := Position.DEF, ovr := 5 }

def dmanPlayer : Player :=
  { id := "p2", name := "dman", photoUrl := "", fitness := 5, defence := 5,
    attack := 5, ballUse := 5, position := Position.ATT, ovr := 5 }

def gammaPlayer : Player :=
  { id := "p3", name := "Gamma", photoUrl := "", fitness := 5, defence := 5,
    attack := 5, ballUse := 5, position := Position.ALR, ovr := 5 }

def deltaPlayer : Player :=
  { id := "p4", name := "Delta", photoUrl := "", fitness := 5, defence := 5,
    attack := 5, ballUse := 5, position := Position.ALR, ovr := 5 }

def jayTwoPlayer : Player :=
  { id := "p5", name := "jay", photoUrl := "", fitness := 5, defence := 5,
    attack := 5, ballUse := 5, position := Position.ALR, ovr := 5 }

def sampleChoice : AnnealChoice :=
  { oneForOne := true, rIdx1 := 0, wIdx1 := 0, rIdx2 := 0, wIdx2 := 0,
    accept := false }

def constChoices : Nat → AnnealChoice := fun _ => sampleChoice

def constZeroDraws : Nat → Nat := fun _ => 0

def idDraws : Nat → Nat := fun k => k

def zeroTempConfig : AlgorithmConfig := { temperature := some 0 }

/-- Equality of `Except` results is decidable componentwise (needed to
evaluate the embedding on concrete inputs inside proofs). -/
instance {ε α : Type} [DecidableEq ε] [DecidableEq α] : DecidableEq (Except ε α) := fun x y =>
  match x, y with
  | Except.error e, Except.error f =>
      if h : e = f then Decidable.isTrue (by rw [h])
      else Decidable.isFalse (by intro hc; injection hc; contradiction)
  | Except.error _, Except.ok _ =>
      Decidable.isFalse (by intro hc; exact Except.noConfusion hc)
  | Except.ok _, Except.error _ =>
      Decidable.isFalse (by intro hc; exact Except.noConfusion hc)
  | Except.ok a, Except.ok b =>
      if h : a = b then Decidable.isTrue (by rw [h])
      else Decidable.isFalse (by intro hc; injection hc; contradiction)

def sampleRedResult : List TeamPlayer := [{ alphaPlayer with isCaptain := true }]

def sampleWhiteResult : List TeamPlayer := [{ betaPlayer with isCaptain := true }]

def sampleResult : TeamGenerationResult :=
  { redTeam := sampleRedResult, whiteTeam := sampleWhiteResult,
    metadata := { algorithm := "constraint-opt", fairnessScore := 87/2,
                  iterations := some 0 } }

def bugRedTeam : List TeamPlayer :=
  [{ dmanPlayer with isCaptain := true }, { deltaPlayer with isCaptain := true }]

def bugWhiteTeam : List TeamPlayer :=
  [{ jayPlayer with isCaptain := false }, { gammaPlayer with isCaptain := false }]

def cexRedTeam : List TeamPlayer := [{ jayTwoPlayer with isCaptain := true }]

def cexWhiteTeam : List TeamPlayer := [{ jayPlayer with isCaptain := true }]

def sampleState : AnnealState :=
  { currentRed := sampleRedResult, currentWhite := sampleWhiteResult,
    currentScore := 0, bestRed := sampleRedResult, bestWhite := sampleWhiteResult,
    bestScore := 0, temperature := 10, iterations := 0 }

/-- Claim C4. For every combination of the four attribute values and a
position, `calculateOVR` returns
`fitness*0.35 + adjDefence*0.25 + adjAttack*0.20 + ballUse*0.20`
rounded to one decimal place, with the DEF/ATT/ALR position adjustments
the specification describes.  Determinism is definitional here: the
embedding of `calculateOVR` is a pure function of exactly these five
inputs, so identical inputs always yield identical output. -/
theorem calculateOVR_matches_spec
    (fitness defence attack ballUse : ℚ) (position : Position) :
    calculateOVR fitness defence attack ballUse position
      = calculateOVRSpec fitness defence attack ballUse position := by
  cases position <;> rfl

theorem swapAt_length (red white : List TeamPlayer) (i j : Nat) :
    (swapAt red white i j).1.length = red.length
      ∧ (swapAt red white i j).2.length = white.length := by
  simp [swapAt]

theorem swapAt_countP (p : TeamPlayer → Bool) (red white : List TeamPlayer)
    (i j : Nat) (hi : i < red.length) (hj : j < white.length) :
    (swapAt red white i j).1.countP p + (swapAt red white i j).2.countP p
      = red.countP p + white.countP p := by
  unfold swapAt
  simp only
  rw [List.getD_eq_getElem white default hj, List.getD_eq_getElem red default hi,
    List.countP_set p red i _ hi, List.countP_set p white j _ hj]
  have hir : (if p red[i] = true then 1 else 0) ≤ red.countP p := by
    by_cases h : p red[i] = true
    · simpa [h] using List.countP_pos.mpr ⟨red[i], List.getElem_mem hi, h⟩
    · simp [h]
  have hjw : (if p white[j] = true then 1 else 0) ≤ white.countP p := by
    by_cases h : p white[j] = true
    · simpa [h] using List.countP_pos.mpr ⟨white[j], List.getElem_mem hj, h⟩
    · simp [h]
  by_cases h1 : p red[i] = true <;> by_cases h2 : p white[j] = true <;>
    simp only [h1, h2, if_true, if_false] at hir hjw ⊢ <;> omega

theorem setCaptain_length (team : List TeamPlayer) (index : Nat) :
    (setCaptain team index).length = team.length := by
  unfold setCaptain
  match h : team[index]? with
  | some p => simp
  | none => simp

/-- Predicates that ignore the captain flag pass through `setCaptain`. -/
theorem setCaptain_countP (p : TeamPlayer → Bool)
    (hp : ∀ (x : TeamPlayer) (b : Bool), p { x with isCaptain := b } = p x)
    (team : List TeamPlayer) (index : Nat) :
    (setCaptain team index).countP p = team.countP p := by
  unfold setCaptain
  match h : team[index]? with
  | some q =>
      obtain ⟨hlt, hq⟩ := List.getElem?_eq_some_iff.mp h
      subst hq
      rw [List.countP_set p team index _ hlt]
      rw [hp team[index] true]
      have hle : (if p team[index] = true then 1 else 0) ≤ team.countP p := by
        by_cases hx : p team[index] = true
        · simpa [hx] using List.countP_pos.mpr ⟨team[index], List.getElem_mem hlt, hx⟩
        · simp [hx]
      by_cases hx : p team[index] = true <;>
        simp only [hx, if_true, if_false] at hle ⊢ <;> omega
  | none => rfl

theorem distribStep_perm (t i : Nat) (p : Player) (rw : List TeamPlayer × List TeamPlayer) :
    ((distribStep t i p rw).1 ++ (distribStep t i p rw).2).Perm
      (rw.1 ++ rw.2 ++ [mkTeamPlayer p]) := by
  unfold distribStep
  split <;> split <;> simp only [List.append_assoc] <;>
    first
      | exact List.Perm.append_left _ (List.perm_append_comm)
      | exact List.Perm.refl _

theorem distribGo_perm (t : Nat) (ps : List Player) :
    ∀ (i : Nat) (rw : List TeamPlayer × List TeamPlayer),
    ((distribGo t i ps rw).1 ++ (distribGo t i ps rw).2).Perm
      (rw.1 ++ rw.2 ++ ps.map mkTeamPlayer) := by
  induction ps with
  | nil => intro i rw; simp [distribGo]
  | cons p ps ih =>
      intro i rw
      have h1 := ih (i + 1) (distribStep t i p rw)
      have h2 := distribStep_perm t i p rw
      have h3 : ((rw.1 ++ rw.2 ++ [mkTeamPlayer p]) ++ ps.map mkTeamPlayer).Perm
          (rw.1 ++ rw.2 ++ (p :: ps).map mkTeamPlayer) := by
        simp [List.append_assoc]
      have hdef : distribGo t i (p :: ps) rw = distribGo t (i + 1) ps (distribStep t i p rw) := rfl
      rw [hdef]
      exact h1.trans ((h2.append_right _).trans h3)

theorem distributePosition_perm (t : Nat) (bucket : List Player)
    (rw : List TeamPlayer × List TeamPlayer) :
    ((distributePosition t bucket rw).1 ++ (distributePosition t bucket rw).2).Perm
      (rw.1 ++ rw.2 ++ bucket.map mkTeamPlayer) := by
  unfold distributePosition
  refine (distribGo_perm t _ 0 rw).trans ?_
  exact List.Perm.append_left _ ((List.perm_insertionSort _ bucket).map mkTeamPlayer)

/-- The three position filters partition a player list (up to
permutation): every player has exactly one of the three positions. -/
theorem threeFilterPerm (l : List Player) :
    (l.filter (fun p => p.position = Position.DEF)
      ++ (l.filter (fun p => p.position = Position.ATT)
        ++ l.filter (fun p => p.position = Position.ALR))).Perm l := by
  induction l with
  | nil => simp
  | cons p l ih =>
      cases hpos : p.position with
      | DEF =>
          simpa [List.filter_cons, hpos] using ih.cons p
      | ATT =>
          simp only [List.filter_cons, hpos]
          simp only [decide_eq_true_eq, reduceCtorEq, if_false, if_true, decide_True]
          exact List.perm_middle.trans (ih.cons p)
      | ALR =>
          simp only [List.filter_cons, hpos]
          simp only [decide_eq_true_eq, reduceCtorEq, if_false, if_true, decide_True]
          refine (List.Perm.append_left _ List.perm_middle).trans ?_
          exact List.perm_middle.trans (ih.cons p)

theorem moveExcessGo_perm (t : Nat) :
    ∀ (fuel : Nat) (src dst : List TeamPlayer),
    ((moveExcessGo t fuel src dst).1 ++ (moveExcessGo t fuel src dst).2).Perm
      (src ++ dst) := by
  intro fuel
  induction fuel with
  | zero => intro src dst; exact List.Perm.refl _
  | succ fuel ih =>
      intro src dst
      rw [moveExcessGo]
      split
      · rename_i h
        refine (ih _ _).trans ?_
        have hne : src ≠ [] := by
          intro hnil; rw [hnil] at h; simp at h
        have hsplit : src.dropLast ++ [src.getLastD default] = src := by
          conv_rhs => rw [← List.dropLast_append_getLast hne]
          rw [List.getLastD_eq_getLast?]
          rw [List.getLast?_eq_getLast src hne]
          rfl
        have step1 : (src.dropLast ++ (dst ++ [src.getLastD default])).Perm
            (src.dropLast ++ ([src.getLastD default] ++ dst)) :=
          List.Perm.append_left _ List.perm_append_comm
        have step2 : src.dropLast ++ ([src.getLastD default] ++ dst) = src ++ dst := by
          rw [← List.append_assoc, hsplit]
        exact step1.trans (step2 ▸ List.Perm.refl _)
      · exact List.Perm.refl _

theorem moveExcess_perm (t : Nat) (src dst : List TeamPlayer) :
    ((moveExcess t src dst).1 ++ (moveExcess t src dst).2).Perm (src ++ dst) := by
  unfold moveExcess
  exact moveExcessGo_perm t src.length src dst

theorem moveExcessGo_length (t : Nat) :
    ∀ (fuel : Nat) (src dst : List TeamPlayer), src.length - t ≤ fuel →
    (moveExcessGo t fuel src dst).1.length = min src.length t
      ∧ (moveExcessGo t fuel src dst).2.length
          = dst.length + (src.length - min src.length t) := by
  intro fuel
  induction fuel with
  | zero =>
      intro src dst hfuel
      rw [moveExcessGo]
      constructor
      · simp only; omega
      · simp only; omega
  | succ fuel ih =>
      intro src dst hfuel
      rw [moveExcessGo]
      split
      · rename_i h
        obtain ⟨ih1, ih2⟩ := ih src.dropLast (dst ++ [src.getLastD default])
          (by simp [List.length_dropLast]; omega)
        constructor
        · rw [ih1]; simp [List.length_dropLast]; omega
        · rw [ih2]; simp [List.length_dropLast]; omega
      · simp only
        constructor
        · omega
        · omega

theorem moveExcess_length (t : Nat) (src dst : List TeamPlayer) :
    (moveExcess t src dst).1.length = min src.length t
      ∧ (moveExcess t src dst).2.length = dst.length + (src.length - min src.length t) := by
  unfold moveExcess
  exact moveExcessGo_length t src.length src dst (by omega)

theorem findSwapInner_bound (ro wo cd : ℚ) (rp : TeamPlayer) :
    ∀ (j k : Nat) (ws : List TeamPlayer),
    findSwapInner ro wo cd rp j ws = some k → j ≤ k ∧ k < j + ws.length := by
  intro j k ws
  induction ws generalizing j with
  | nil => intro h; simp [findSwapInner] at h
  | cons wp rest ih =>
      intro h
      rw [findSwapInner] at h
      split at h
      · cases h; constructor <;> simp
      · have := ih (j + 1) h
        simp only [List.length_cons]
        omega

theorem findSwapOuter_bound (ro wo cd : ℚ) (white : List TeamPlayer) :
    ∀ (i a b : Nat) (rs : List TeamPlayer),
    findSwapOuter ro wo cd white i rs = some (a, b) →
      (i ≤ a ∧ a < i + rs.length) ∧ b < white.length := by
  intro i a b rs
  induction rs generalizing i with
  | nil => intro h; simp [findSwapOuter] at h
  | cons rp rest ih =>
      intro h
      rw [findSwapOuter] at h
      split at h
      · rename_i j hj
        cases h
        have := findSwapInner_bound ro wo cd rp 0 b white hj
        constructor
        · constructor <;> simp
        · omega
      · have := ih (i + 1) h
        simp only [List.length_cons]
        omega

theorem findImprovingPair_bounds (red white : List TeamPlayer) (i j : Nat)
    (h : findImprovingPair red white = some (i, j)) :
    i < red.length ∧ j < white.length := by
  unfold findImprovingPair at h
  have := findSwapOuter_bound _ _ _ white 0 i j red h
  omega

theorem fineTune_length (fuel : Nat) :
    ∀ rw : List TeamPlayer × List TeamPlayer,
    (fineTune fuel rw).1.length = rw.1.length
      ∧ (fineTune fuel rw).2.length = rw.2.length := by
  induction fuel with
  | zero => intro rw; exact ⟨rfl, rfl⟩
  | succ fuel ih =>
      intro ⟨red, white⟩
      rw [fineTune]
      match h : findImprovingPair red white with
      | none => exact ⟨rfl, rfl⟩
      | some (i, j) =>
          have := ih (swapAt red white i j)
          have hlen := swapAt_length red white i j
          simp only at this ⊢
          omega

theorem fineTune_countP (p : TeamPlayer → Bool) (fuel : Nat) :
    ∀ rw : List TeamPlayer × List TeamPlayer,
    (fineTune fuel rw).1.countP p + (fineTune fuel rw).2.countP p
      = rw.1.countP p + rw.2.countP p := by
  induction fuel with
  | zero => intro rw; rfl
  | succ fuel ih =>
      intro ⟨red, white⟩
      rw [fineTune]
      match h : findImprovingPair red white with
      | none => rfl
      | some (i, j) =>
          obtain ⟨hi, hj⟩ := findImprovingPair_bounds red white i j h
          have := ih (swapAt red white i j)
          have hsw := swapAt_countP p red white i j hi hj
          simp only at this ⊢
          omega

theorem findIdx?_some_spec (p : TeamPlayer → Bool) (l : List TeamPlayer) (i : Nat)
    (h : l.findIdx? p = some i) :
    i < l.length ∧ p (l.getD i default) = true := by
  obtain ⟨hlt, hfi⟩ := List.findIdx?_eq_some_iff_findIdx_eq.mp h
  refine ⟨hlt, ?_⟩
  rw [List.getD_eq_getElem l default hlt]
  have := @List.findIdx_getElem _ p l (hfi ▸ hlt)
  simpa [hfi] using this

theorem findIdxIsSome_iff_countP_pos (p : TeamPlayer → Bool) (l : List TeamPlayer) :
    (l.findIdx? p).isSome = true ↔ 0 < l.countP p := by
  rw [List.countP_pos]
  constructor
  · intro h
    match hfi : l.findIdx? p with
    | none => rw [hfi] at h; simp at h
    | some i =>
        obtain ⟨hlt, hp⟩ := findIdx?_some_spec p l i hfi
        rw [List.getD_eq_getElem l default hlt] at hp
        exact ⟨_, List.getElem_mem hlt, hp⟩
  · intro ⟨a, ha, hp⟩
    match hfi : l.findIdx? p with
    | some i => simp
    | none =>
        rw [List.findIdx?_eq_none_iff] at hfi
        have := hfi a ha
        rw [this] at hp
        exact absurd hp (by simp)

theorem any_iff_countP_pos (p : TeamPlayer → Bool) (l : List TeamPlayer) :
    l.any p = true ↔ 0 < l.countP p := by
  rw [List.any_eq_true, List.countP_pos]

/-- No player's name lowercases to both `jay` and `dman`. -/
theorem matchA_matchB_exclusive (p : TeamPlayer) :
    ¬(matchA p = true ∧ matchB p = true) := by
  intro ⟨ha, hb⟩
  simp only [matchA, matchB, beq_iff_eq] at ha hb
  rw [ha] at hb
  exact absurd hb (by decide)

theorem swapAt_countP_left (p : TeamPlayer → Bool) (r w : List TeamPlayer)
    (i j : Nat) (hi : i < r.length) (hj : j < w.length) :
    (swapAt r w i j).1.countP p
      = r.countP p - (if p (r.getD i default) = true then 1 else 0)
        + (if p (w.getD j default) = true then 1 else 0) := by
  unfold swapAt
  simp only
  rw [List.getD_eq_getElem r default hi, List.getD_eq_getElem w default hj,
    List.countP_set p r i _ hi]

theorem swapAt_countP_right (p : TeamPlayer → Bool) (r w : List TeamPlayer)
    (i j : Nat) (hi : i < r.length) (hj : j < w.length) :
    (swapAt r w i j).2.countP p
      = w.countP p - (if p (w.getD j default) = true then 1 else 0)
        + (if p (r.getD i default) = true then 1 else 0) := by
  unfold swapAt
  simp only
  rw [List.getD_eq_getElem r default hi, List.getD_eq_getElem w default hj,
    List.countP_set p w j _ hj]

theorem countP_indicator_le (p : TeamPlayer → Bool) (l : List TeamPlayer)
    (i : Nat) (hi : i < l.length) :
    (if p (l.getD i default) = true then 1 else 0) ≤ l.countP p := by
  rw [List.getD_eq_getElem l default hi]
  by_cases h : p l[i] = true
  · simpa [h] using List.countP_pos.mpr ⟨l[i], List.getElem_mem hi, h⟩
  · simp [h]

theorem aTC_branch1 (r w : List TeamPlayer) (bR si : Nat)
    (hc1 : ((r.findIdx? matchA).isSome && (r.findIdx? matchB).isSome) = true)
    (hbR : r.findIdx? matchB = some bR)
    (hsi : w.findIdx? (fun p => !matchA p && !matchB p) = some si) :
    applyTeamConstraints r w =
      (if (swapAt r w bR si).1.any matchA then
        ((swapAt r w bR si).2, (swapAt r w bR si).1)
      else swapAt r w bR si) := by
  unfold applyTeamConstraints
  dsimp only
  rw [if_pos hc1, hbR, hsi]

theorem aTC_branch1_nosi (r w : List TeamPlayer)
    (hc1 : ((r.findIdx? matchA).isSome && (r.findIdx? matchB).isSome) = true)
    (hsi : w.findIdx? (fun p => !matchA p && !matchB p) = none) :
    applyTeamConstraints r w = (if r.any matchA then (w, r) else (r, w)) := by
  unfold applyTeamConstraints
  dsimp only
  rw [if_pos hc1, hsi]
  match hfi : r.findIdx? matchB with
  | some bR => rfl
  | none => rfl

theorem aTC_branch2 (r w : List TeamPlayer) (bW si : Nat)
    (hc1 : ¬(((r.findIdx? matchA).isSome && (r.findIdx? matchB).isSome) = true))
    (hc2 : ((w.findIdx? matchA).isSome && (w.findIdx? matchB).isSome) = true)
    (hbW : w.findIdx? matchB = some bW)
    (hsi : r.findIdx? (fun p => !matchA p && !matchB p) = some si) :
    applyTeamConstraints r w =
      (if (swapAt r w si bW).1.any matchA then
        ((swapAt r w si bW).2, (swapAt r w si bW).1)
      else swapAt r w si bW) := by
  unfold applyTeamConstraints
  dsimp only
  rw [if_neg hc1, if_pos hc2, hbW, hsi]

theorem aTC_branch2_nosi (r w : List TeamPlayer)
    (hc1 : ¬(((r.findIdx? matchA).isSome && (r.findIdx? matchB).isSome) = true))
    (hc2 : ((w.findIdx? matchA).isSome && (w.findIdx? matchB).isSome) = true)
    (hsi : r.findIdx? (fun p => !matchA p && !matchB p) = none) :
    applyTeamConstraints r w = (if r.any matchA then (w, r) else (r, w)) := by
  unfold applyTeamConstraints
  dsimp only
  rw [if_neg hc1, if_pos hc2, hsi]
  match hfi : w.findIdx? matchB with
  | some bW => rfl
  | none => rfl

theorem aTC_else (r w : List TeamPlayer)
    (hc1 : ¬(((r.findIdx? matchA).isSome && (r.findIdx? matchB).isSome) = true))
    (hc2 : ¬(((w.findIdx? matchA).isSome && (w.findIdx? matchB).isSome) = true)) :
    applyTeamConstraints r w = (if r.any matchA then (w, r) else (r, w)) := by
  unfold applyTeamConstraints
  dsimp only
  rw [if_neg hc1, if_neg hc2]

/-- Core behaviour of `applyTeamConstraints` when the input rosters
contain at most one `jay`-named and at most one `dman`-named player and
have equal sizes: the returned red team carries no `jay`, and `jay` and
`dman` never share a returned team. -/
theorem applyTeamConstraints_spec (r w : List TeamPlayer)
    (hA : (r ++ w).countP matchA ≤ 1) (hB : (r ++ w).countP matchB ≤ 1)
    (hlen : r.length = w.length) :
    (applyTeamConstraints r w).1.countP matchA = 0
    ∧ ¬(0 < (applyTeamConstraints r w).2.countP matchA
        ∧ 0 < (applyTeamConstraints r w).2.countP matchB) := by
  rw [List.countP_append] at hA hB
  by_cases hc1 : ((r.findIdx? matchA).isSome && (r.findIdx? matchB).isSome) = true
  · -- jay and dman both on red
    obtain ⟨hc1A, hc1B⟩ := Bool.and_eq_true_iff.mp hc1
    have hrApos : 0 < r.countP matchA := (findIdxIsSome_iff_countP_pos _ _).mp hc1A
    have hrBpos : 0 < r.countP matchB := (findIdxIsSome_iff_countP_pos _ _).mp hc1B
    have hwA : w.countP matchA = 0 := by omega
    have hwB : w.countP matchB = 0 := by omega
    obtain ⟨bR, hbR⟩ := Option.isSome_iff_exists.mp hc1B
    obtain ⟨hbRlt, hbRp⟩ := findIdx?_some_spec matchB r bR hbR
    cases hsi : w.findIdx? (fun p => !matchA p && !matchB p) with
    | some si =>
        obtain ⟨hsilt, hsip⟩ := findIdx?_some_spec _ w si hsi
        rw [Bool.and_eq_true_iff, Bool.not_eq_true', Bool.not_eq_true'] at hsip
        obtain ⟨hsiA, hsiB⟩ := hsip
        rw [aTC_branch1 r w bR si hc1 hbR hsi]
        have hbRA : matchA (r.getD bR default) = false := by
          by_cases hx : matchA (r.getD bR default) = true
          · exact absurd ⟨hx, hbRp⟩ (matchA_matchB_exclusive _)
          · simpa using hx
        have hl := swapAt_countP_left matchA r w bR si hbRlt hsilt
        have hr := swapAt_countP_right matchA r w bR si hbRlt hsilt
        have hlB := swapAt_countP_left matchB r w bR si hbRlt hsilt
        have hrB := swapAt_countP_right matchB r w bR si hbRlt hsilt
        rw [hbRA, hsiA] at hl hr
        rw [hbRp, hsiB] at hlB hrB
        norm_num at hl hr hlB hrB
        -- red side still holds jay, so the wholesale flip fires
        have hflip : (swapAt r w bR si).1.any matchA = true := by
          rw [any_iff_countP_pos, hl]; omega
        rw [if_pos hflip]
        dsimp only
        refine ⟨by rw [hr]; omega, ?_⟩
        intro ⟨hpos1, hpos2⟩
        rw [hlB] at hpos2
        omega
    | none =>
        -- white consists only of jay/dman names, hence is empty, hence red is too
        rw [List.findIdx?_eq_none_iff] at hsi
        have hw : w = [] := by
          cases hwcase : w with
          | nil => rfl
          | cons x xs =>
              exfalso
              have hx := hsi x (by rw [hwcase]; exact List.mem_cons_self x xs)
              rw [Bool.and_eq_false_iff] at hx
              have hxA : matchA x = true ∨ matchB x = true := by
                cases hx with
                | inl h => left; simpa using h
                | inr h => right; simpa using h
              cases hxA with
              | inl h =>
                  have : 0 < w.countP matchA :=
                    List.countP_pos.mpr ⟨x, by rw [hwcase]; exact List.mem_cons_self x xs, h⟩
                  omega
              | inr h =>
                  have : 0 < w.countP matchB :=
                    List.countP_pos.mpr ⟨x, by rw [hwcase]; exact List.mem_cons_self x xs, h⟩
                  omega
        exfalso
        have hrnil : r = [] := by
          rw [← List.length_eq_zero, hlen, hw]
          rfl
        rw [hrnil] at hrApos
        simp at hrApos
  · by_cases hc2 : ((w.findIdx? matchA).isSome && (w.findIdx? matchB).isSome) = true
    · -- jay and dman both on white
      obtain ⟨hc2A, hc2B⟩ := Bool.and_eq_true_iff.mp hc2
      have hwApos : 0 < w.countP matchA := (findIdxIsSome_iff_countP_pos _ _).mp hc2A
      have hwBpos : 0 < w.countP matchB := (findIdxIsSome_iff_countP_pos _ _).mp hc2B
      have hrA : r.countP matchA = 0 := by omega
      have hrB : r.countP matchB = 0 := by omega
      obtain ⟨bW, hbW⟩ := Option.isSome_iff_exists.mp hc2B
      obtain ⟨hbWlt, hbWp⟩ := findIdx?_some_spec matchB w bW hbW
      cases hsi : r.findIdx? (fun p => !matchA p && !matchB p) with
      | some si =>
          obtain ⟨hsilt, hsip⟩ := findIdx?_some_spec _ r si hsi
          rw [Bool.and_eq_true_iff, Bool.not_eq_true', Bool.not_eq_true'] at hsip
          obtain ⟨hsiA, hsiB⟩ := hsip
          rw [aTC_branch2 r w bW si hc1 hc2 hbW hsi]
          have hbWA : matchA (w.getD bW default) = false := by
            by_cases hx : matchA (w.getD bW default) = true
            · exact absurd ⟨hx, hbWp⟩ (matchA_matchB_exclusive _)
            · simpa using hx
          have hl := swapAt_countP_left matchA r w si bW hsilt hbWlt
          have hr := swapAt_countP_right matchA r w si bW hsilt hbWlt
          have hlB := swapAt_countP_left matchB r w si bW hsilt hbWlt
          have hrB := swapAt_countP_right matchB r w si bW hsilt hbWlt
          rw [hsiA, hbWA] at hl
          rw [hbWA, hsiA] at hr
          rw [hsiB, hbWp] at hlB hrB
          norm_num at hl hr hlB hrB
          -- red still has no jay, so no flip
          have hflip : ¬((swapAt r w si bW).1.any matchA = true) := by
            rw [any_iff_countP_pos, hl]
            omega
          rw [if_neg hflip]
          refine ⟨by rw [hl]; omega, ?_⟩
          intro ⟨hpos1, hpos2⟩
          rw [hrB] at hpos2
          omega
      | none =>
          rw [List.findIdx?_eq_none_iff] at hsi
          have hr0 : r = [] := by
            cases hrcase : r with
            | nil => rfl
            | cons x xs =>
                exfalso
                have hx := hsi x (by rw [hrcase]; exact List.mem_cons_self x xs)
                rw [Bool.and_eq_false_iff] at hx
                have hxA : matchA x = true ∨ matchB x = true := by
                  cases hx with
                  | inl h => left; simpa using h
                  | inr h => right; simpa using h
                cases hxA with
                | inl h =>
                    have : 0 < r.countP matchA :=
                      List.countP_pos.mpr ⟨x, by rw [hrcase]; exact List.mem_cons_self x xs, h⟩
                    omega
                | inr h =>
                    have : 0 < r.countP matchB :=
                      List.countP_pos.mpr ⟨x, by rw [hrcase]; exact List.mem_cons_self x xs, h⟩
                    omega
          exfalso
          have hwnil : w = [] := by
            rw [← List.length_eq_zero, ← hlen, hr0]
            rfl
          rw [hwnil] at hwApos
          simp at hwApos
    · -- jay and dman already on different teams (or one/both absent)
      rw [aTC_else r w hc1 hc2]
      rw [Bool.and_eq_true_iff] at hc1 hc2
      by_cases hany : r.any matchA = true
      · have hrApos : 0 < r.countP matchA := (any_iff_countP_pos _ _).mp hany
        have hwA : w.countP matchA = 0 := by omega
        rw [if_pos hany]
        refine ⟨hwA, ?_⟩
        intro ⟨hpos1, hpos2⟩
        -- result.2 = r: jay on r forces dman off r by ¬hc1
        have hc1' : ¬(0 < r.countP matchA ∧ 0 < r.countP matchB) := by
          intro ⟨h1, h2⟩
          exact hc1 ⟨(findIdxIsSome_iff_countP_pos _ _).mpr h1,
            (findIdxIsSome_iff_countP_pos _ _).mpr h2⟩
        exact hc1' ⟨hpos1, hpos2⟩
      · have hrA : r.countP matchA = 0 := by
          by_contra hne
          exact hany ((any_iff_countP_pos _ _).mpr (by omega))
        rw [if_neg hany]
        refine ⟨hrA, ?_⟩
        intro ⟨hpos1, hpos2⟩
        have hc2' : ¬(0 < w.countP matchA ∧ 0 < w.countP matchB) := by
          intro ⟨h1, h2⟩
          exact hc2 ⟨(findIdxIsSome_iff_countP_pos _ _).mpr h1,
            (findIdxIsSome_iff_countP_pos _ _).mpr h2⟩
        exact hc2' ⟨hpos1, hpos2⟩

theorem applyTeamConstraints_lengths (r w : List TeamPlayer) :
    ((applyTeamConstraints r w).1.length = r.length
      ∧ (applyTeamConstraints r w).2.length = w.length)
    ∨ ((applyTeamConstraints r w).1.length = w.length
      ∧ (applyTeamConstraints r w).2.length = r.length) := by
  by_cases hc1 : ((r.findIdx? matchA).isSome && (r.findIdx? matchB).isSome) = true
  · obtain ⟨hc1A, hc1B⟩ := Bool.and_eq_true_iff.mp hc1
    obtain ⟨bR, hbR⟩ := Option.isSome_iff_exists.mp hc1B
    cases hsi : w.findIdx? (fun q => !matchA q && !matchB q) with
    | some si =>
        rw [aTC_branch1 r w bR si hc1 hbR hsi]
        split <;> simp [swapAt]
    | none =>
        rw [aTC_branch1_nosi r w hc1 hsi]
        split <;> simp
  · by_cases hc2 : ((w.findIdx? matchA).isSome && (w.findIdx? matchB).isSome) = true
    · obtain ⟨hc2A, hc2B⟩ := Bool.and_eq_true_iff.mp hc2
      obtain ⟨bW, hbW⟩ := Option.isSome_iff_exists.mp hc2B
      cases hsi : r.findIdx? (fun q => !matchA q && !matchB q) with
      | some si =>
          rw [aTC_branch2 r w bW si hc1 hc2 hbW hsi]
          split <;> simp [swapAt]
      | none =>
          rw [aTC_branch2_nosi r w hc1 hc2 hsi]
          split <;> simp
    · rw [aTC_else r w hc1 hc2]
      split <;> simp

theorem applyTeamConstraints_countP (p : TeamPlayer → Bool) (r w : List TeamPlayer) :
    (applyTeamConstraints r w).1.countP p + (applyTeamConstraints r w).2.countP p
      = r.countP p + w.countP p := by
  by_cases hc1 : ((r.findIdx? matchA).isSome && (r.findIdx? matchB).isSome) = true
  · obtain ⟨hc1A, hc1B⟩ := Bool.and_eq_true_iff.mp hc1
    obtain ⟨bR, hbR⟩ := Option.isSome_iff_exists.mp hc1B
    obtain ⟨hbRlt, _⟩ := findIdx?_some_spec matchB r bR hbR
    cases hsi : w.findIdx? (fun q => !matchA q && !matchB q) with
    | some si =>
        obtain ⟨hsilt, _⟩ := findIdx?_some_spec _ w si hsi
        rw [aTC_branch1 r w bR si hc1 hbR hsi]
        have := swapAt_countP p r w bR si hbRlt hsilt
        split <;> (try dsimp only) <;> omega
    | none =>
        rw [aTC_branch1_nosi r w hc1 hsi]
        split <;> (try dsimp only) <;> omega
  · by_cases hc2 : ((w.findIdx? matchA).isSome && (w.findIdx? matchB).isSome) = true
    · obtain ⟨hc2A, hc2B⟩ := Bool.and_eq_true_iff.mp hc2
      obtain ⟨bW, hbW⟩ := Option.isSome_iff_exists.mp hc2B
      obtain ⟨hbWlt, _⟩ := findIdx?_some_spec matchB w bW hbW
      cases hsi : r.findIdx? (fun q => !matchA q && !matchB q) with
      | some si =>
          obtain ⟨hsilt, _⟩ := findIdx?_some_spec _ r si hsi
          rw [aTC_branch2 r w bW si hc1 hc2 hbW hsi]
          have := swapAt_countP p r w si bW hsilt hbWlt
          split <;> (try dsimp only) <;> omega
      | none =>
          rw [aTC_branch2_nosi r w hc1 hc2 hsi]
          split <;> (try dsimp only) <;> omega
    · rw [aTC_else r w hc1 hc2]
      split <;> (try dsimp only) <;> omega

theorem sortByOvrDesc_length (l : List Player) :
    (sortByOvrDesc l).length = l.length := by
  unfold sortByOvrDesc
  exact List.length_insertionSort _ l

theorem sortByOvrDesc_perm (l : List Player) :
    (sortByOvrDesc l).Perm l := by
  unfold sortByOvrDesc
  exact List.perm_insertionSort _ l

/-- Everything the downstream claims need about a successful run of the
Draft Allocator: success implies the pool was big enough, both teams
have exactly `teamSize` players, and captain-flag-insensitive counts
over the union of the two teams agree with the selected top
`teamSize * 2` players. -/
theorem generateBalancedTeams_ok_spec (players : List Player) (t rc wc : Nat)
    (r w : List TeamPlayer)
    (hok : generateBalancedTeams players t rc wc = Except.ok (r, w)) :
    t * 2 ≤ players.length ∧ r.length = t ∧ w.length = t
    ∧ ∀ p : TeamPlayer → Bool, (∀ x b, p { x with isCaptain := b } = p x) →
        r.countP p + w.countP p
          = ((sortByOvrDesc players).take (t * 2)).countP (fun q => p (mkTeamPlayer q)) := by
  by_cases hcond : players.length < t * 2
  · exfalso
    unfold generateBalancedTeams at hok
    rw [if_pos hcond] at hok
    exact Except.noConfusion hok
  unfold generateBalancedTeams at hok
  rw [if_neg hcond] at hok
  dsimp only at hok
  -- name the pipeline stages
  set sel := (sortByOvrDesc players).take (t * 2) with hsel
  set defs := sel.filter (fun p => p.position = Position.DEF) with hdefs
  set atts := sel.filter (fun p => p.position = Position.ATT) with hatts
  set alrs := sel.filter (fun p => p.position = Position.ALR) with halrs
  set rw0 := distributePosition t defs ([], []) with hrw0
  set rw1 := distributePosition t atts rw0 with hrw1
  set rw2 := distributePosition t alrs rw1 with hrw2
  set rw3 := moveExcess t rw2.1 rw2.2 with hrw3
  set moved := moveExcess t rw3.2 rw3.1 with hmoved
  set tuned := fineTune 100 (moved.2, moved.1) with htuned
  set redT := setCaptain tuned.1 rc with hredT
  set whiteT := setCaptain tuned.2 wc with hwhiteT
  have hpair : applyTeamConstraints redT whiteT = (r, w) := by
    have := hok
    rw [Except.ok.injEq] at this
    exact this
  have hr1 : (applyTeamConstraints redT whiteT).1 = r := by rw [hpair]
  have hw1 : (applyTeamConstraints redT whiteT).2 = w := by rw [hpair]
  -- selected-player count
  have hsellen : sel.length = t * 2 := by
    rw [hsel, List.length_take_of_le]
    rw [sortByOvrDesc_length]
    omega
  -- the three buckets partition the selection
  have hfilters : (defs ++ (atts ++ alrs)).Perm sel := threeFilterPerm sel
  have hbucketlen : defs.length + atts.length + alrs.length = t * 2 := by
    have := hfilters.length_eq
    simp only [List.length_append] at this
    omega
  -- union after the three distribution rounds
  have hd0 := distributePosition_perm t defs (([] : List TeamPlayer), ([] : List TeamPlayer))
  have hd1 := distributePosition_perm t atts rw0
  have hd2 := distributePosition_perm t alrs rw1
  have hunion2 : (rw2.1 ++ rw2.2).Perm
      ((defs ++ (atts ++ alrs)).map mkTeamPlayer) := by
    refine hd2.trans ?_
    have h1 : (rw1.1 ++ rw1.2 ++ alrs.map mkTeamPlayer).Perm
        (rw0.1 ++ rw0.2 ++ atts.map mkTeamPlayer ++ alrs.map mkTeamPlayer) :=
      hd1.append_right _
    refine h1.trans ?_
    have h2 : (rw0.1 ++ rw0.2 ++ atts.map mkTeamPlayer ++ alrs.map mkTeamPlayer).Perm
        (([] : List TeamPlayer) ++ [] ++ defs.map mkTeamPlayer
          ++ atts.map mkTeamPlayer ++ alrs.map mkTeamPlayer) :=
      (hd0.append_right _).append_right _
    refine h2.trans ?_
    simp [List.append_assoc]
  have hlen2 : rw2.1.length + rw2.2.length = t * 2 := by
    have := hunion2.length_eq
    simp only [List.length_append, List.length_map] at this
    omega
  -- rebalancing gives exactly t players a side
  have hm3 := moveExcess_length t rw2.1 rw2.2
  rw [← hrw3] at hm3
  have hm4 := moveExcess_length t rw3.2 rw3.1
  rw [← hmoved] at hm4
  have hlen3 : rw3.1.length + rw3.2.length = t * 2 ∧ rw3.1.length ≤ t := by
    constructor <;> omega
  have hlen4 : moved.2.length = t ∧ moved.1.length = t := by
    constructor <;> omega
  -- fine-tuning preserves sizes
  have hft := fineTune_length 100 (moved.2, moved.1)
  have htl : tuned.1.length = t ∧ tuned.2.length = t := by
    rw [htuned]
    constructor
    · rw [hft.1]; exact hlen4.1
    · rw [hft.2]; exact hlen4.2
  have hcap1 : redT.length = t := by rw [hredT, setCaptain_length]; exact htl.1
  have hcap2 : whiteT.length = t := by rw [hwhiteT, setCaptain_length]; exact htl.2
  have hatc := applyTeamConstraints_lengths redT whiteT
  have hrlen : r.length = t := by
    cases hatc with
    | inl h => rw [← hr1, h.1]; exact hcap1
    | inr h => rw [← hr1, h.1]; exact hcap2
  have hwlen : w.length = t := by
    cases hatc with
    | inl h => rw [← hw1, h.2]; exact hcap2
    | inr h => rw [← hw1, h.2]; exact hcap1
  refine ⟨by omega, hrlen, hwlen, ?_⟩
  intro p hp
  have hatcc := applyTeamConstraints_countP p redT whiteT
  rw [hr1, hw1] at hatcc
  rw [hatcc, hredT, hwhiteT, setCaptain_countP p hp, setCaptain_countP p hp]
  have hftc := fineTune_countP p 100 (moved.2, moved.1)
  rw [htuned, hftc]
  have hm3c := moveExcess_perm t rw2.1 rw2.2
  rw [← hrw3] at hm3c
  have hm4c := moveExcess_perm t rw3.2 rw3.1
  rw [← hmoved] at hm4c
  have hcount4 : moved.2.countP p + moved.1.countP p = rw2.1.countP p + rw2.2.countP p := by
    have c4 := hm4c.countP_eq p
    have c3 := hm3c.countP_eq p
    simp only [List.countP_append] at c4 c3
    omega
  dsimp only
  rw [hcount4]
  have hc2 : rw2.1.countP p + rw2.2.countP p = sel.countP (fun q => p (mkTeamPlayer q)) := by
    have := hunion2.countP_eq p
    simp only [List.countP_append] at this
    rw [this]
    have := (hfilters.map mkTeamPlayer).countP_eq p
    rw [this, List.countP_map]
    rfl
  exact hc2

theorem generateSwap_length (red white : List TeamPlayer) (c : AnnealChoice) :
    (generateSwap red white c).1.length = red.length
      ∧ (generateSwap red white c).2.length = white.length := by
  unfold generateSwap
  split <;> simp [swapAt]

theorem annealStep_lengths (m : MergedConfig) (c : AnnealChoice) (s : AnnealState) :
    (annealStep m c s).currentRed.length = s.currentRed.length
    ∧ (annealStep m c s).currentWhite.length = s.currentWhite.length
    ∧ ((annealStep m c s).bestRed.length = s.bestRed.length
        ∨ (annealStep m c s).bestRed.length = s.currentRed.length)
    ∧ ((annealStep m c s).bestWhite.length = s.bestWhite.length
        ∨ (annealStep m c s).bestWhite.length = s.currentWhite.length) := by
  unfold annealStep
  dsimp only
  have hg := generateSwap_length s.currentRed s.currentWhite c
  split <;> (try split) <;> simp_all

theorem annealStep_bestScore_le (m : MergedConfig) (c : AnnealChoice) (s : AnnealState) :
    (annealStep m c s).bestScore ≤ s.bestScore := by
  unfold annealStep
  dsimp only
  split <;> (try split) <;> simp_all <;> linarith

theorem annealStep_iterations (m : MergedConfig) (c : AnnealChoice) (s : AnnealState) :
    (annealStep m c s).iterations = s.iterations + 1 := by
  unfold annealStep
  dsimp only
  split <;> (try split) <;> rfl

theorem annealLoop_bestScore_le (m : MergedConfig) (choices : Nat → AnnealChoice) :
    ∀ (fuel : Nat) (s : AnnealState),
    (annealLoop m choices fuel s).bestScore ≤ s.bestScore := by
  intro fuel
  induction fuel with
  | zero => intro s; exact le_refl _
  | succ fuel ih =>
      intro s
      rw [annealLoop]
      split
      · exact le_trans (ih _) (annealStep_bestScore_le m _ s)
      · exact le_refl _

theorem annealLoop_iterations_le (m : MergedConfig) (choices : Nat → AnnealChoice) :
    ∀ (fuel : Nat) (s : AnnealState),
    (annealLoop m choices fuel s).iterations ≤ s.iterations + fuel := by
  intro fuel
  induction fuel with
  | zero => intro s; simp [annealLoop]
  | succ fuel ih =>
      intro s
      rw [annealLoop]
      split
      · have h1 := ih (annealStep m (choices s.iterations) s)
        have h2 := annealStep_iterations m (choices s.iterations) s
        omega
      · omega

theorem annealLoop_lengths (m : MergedConfig) (choices : Nat → AnnealChoice) :
    ∀ (fuel : Nat) (s : AnnealState),
    s.bestRed.length = s.currentRed.length →
    s.bestWhite.length = s.currentWhite.length →
    (annealLoop m choices fuel s).bestRed.length = s.currentRed.length
    ∧ (annealLoop m choices fuel s).bestWhite.length = s.currentWhite.length := by
  intro fuel
  induction fuel with
  | zero => intro s h1 h2; exact ⟨h1, h2⟩
  | succ fuel ih =>
      intro s h1 h2
      rw [annealLoop]
      split
      · have hs := annealStep_lengths m (choices s.iterations) s
        have := ih (annealStep m (choices s.iterations) s)
          (by omega) (by omega)
        omega
      · exact ⟨h1, h2⟩

theorem assignRandomCaptains_length (red white : List TeamPlayer) (ri wi : Nat) :
    (assignRandomCaptains red white ri wi).1.length = red.length
      ∧ (assignRandomCaptains red white ri wi).2.length = white.length := by
  unfold assignRandomCaptains
  constructor <;> rw [setCaptain_length] <;> simp

theorem generateConstraintOptimizedTeams_error (players : List Player)
    (t : Nat) (config : AlgorithmConfig) (sr sw : Nat)
    (choices : Nat → AnnealChoice) (capR capW : Nat) (e : String)
    (hgbt : generateBalancedTeams players t sr sw = Except.error e) :
    generateConstraintOptimizedTeams players t config sr sw choices capR capW
      = Except.error e := by
  unfold generateConstraintOptimizedTeams
  rw [hgbt]

theorem generateConstraintOptimizedTeams_ok_spec (players : List Player)
    (t : Nat) (config : AlgorithmConfig) (sr sw : Nat)
    (choices : Nat → AnnealChoice) (capR capW : Nat) (r0 w0 : List TeamPlayer)
    (hgbt : generateBalancedTeams players t sr sw = Except.ok (r0, w0)) :
    ∃ res, generateConstraintOptimizedTeams players t config sr sw choices capR capW
        = Except.ok res
      ∧ res.metadata.algorithm = "constraint-opt"
      ∧ res.redTeam.length = r0.length
      ∧ res.whiteTeam.length = w0.length
      ∧ res.metadata.fairnessScore
          ≤ (calculateFairnessScore r0 w0 (mergeConfig config).toConfig).1
      ∧ ∃ n, res.metadata.iterations = some n
          ∧ n ≤ (mergeConfig config).maxIterations := by
  unfold generateConstraintOptimizedTeams
  rw [hgbt]
  dsimp only
  set m := mergeConfig config with hm
  set score0 := (calculateFairnessScore r0 w0 m.toConfig).1 with hscore0
  set s0 : AnnealState :=
    { currentRed := r0, currentWhite := w0, currentScore := score0,
      bestRed := r0, bestWhite := w0, bestScore := score0,
      temperature := m.temperature, iterations := 0 } with hs0
  set sF := annealLoop m choices m.maxIterations s0 with hsF
  refine ⟨_, rfl, rfl, ?_, ?_, ?_, ?_⟩
  · have hlen := annealLoop_lengths m choices m.maxIterations s0 rfl rfl
    rw [← hsF] at hlen
    exact ((assignRandomCaptains_length sF.bestRed sF.bestWhite capR capW).1).trans hlen.1
  · have hlen := annealLoop_lengths m choices m.maxIterations s0 rfl rfl
    rw [← hsF] at hlen
    exact ((assignRandomCaptains_length sF.bestRed sF.bestWhite capR capW).2).trans hlen.2
  · have := annealLoop_bestScore_le m choices m.maxIterations s0
    rw [← hsF] at this
    exact this
  · refine ⟨sF.iterations, rfl, ?_⟩
    have := annealLoop_iterations_le m choices m.maxIterations s0
    rw [← hsF] at this
    simpa using this

theorem generateILPOptimizedTeams_fallback (players : List Player) (t : Nat)
    (config : AlgorithmConfig) (capR capW fsr fsw fcr fcw : Nat)
    (fbChoices : Nat → AnnealChoice) (outcome : SolverOutcome)
    (hout : outcome = SolverOutcome.infeasible ∨ outcome = SolverOutcome.solverFailure) :
    generateILPOptimizedTeams players t config outcome capR capW fsr fsw fbChoices fcr fcw
      = generateConstraintOptimizedTeams players t config fsr fsw fbChoices fcr fcw := by
  cases hout with
  | inl h => rw [h]; rfl
  | inr h => rw [h]; rfl

theorem generateILPOptimizedTeams_success_spec (players : List Player) (t : Nat)
    (config : AlgorithmConfig) (assignment : Nat → Option ℚ)
    (capR capW fsr fsw fcr fcw : Nat) (fbChoices : Nat → AnnealChoice)
    (hpool : t * 2 ≤ players.length) :
    ∃ res, generateILPOptimizedTeams players t config
        (SolverOutcome.success assignment) capR capW fsr fsw fbChoices fcr fcw
        = Except.ok res
      ∧ res.metadata.algorithm = "ilp-solver"
      ∧ res.redTeam.length = t ∧ res.whiteTeam.length = t := by
  unfold generateILPOptimizedTeams
  dsimp only
  set sel := (sortByOvrDesc players).take (t * 2) with hsel
  set playerScores := sel.enum.map (fun iv => (iv.2, (assignment iv.1).getD 0))
    with hps
  set sortedScores := playerScores.insertionSort (fun a b => b.2 ≤ a.2) with hss
  have hsellen : sel.length = t * 2 := by
    rw [hsel, List.length_take_of_le]
    rw [sortByOvrDesc_length]
    omega
  have hsslen : sortedScores.length = t * 2 := by
    rw [hss, List.length_insertionSort, hps, List.length_map, List.enum_length, hsellen]
  refine ⟨_, rfl, rfl, ?_, ?_⟩
  · rw [(assignRandomCaptains_length _ _ capR capW).1]
    rw [List.length_map, List.length_take_of_le (by omega)]
  · rw [(assignRandomCaptains_length _ _ capR capW).2]
    rw [List.length_map, List.length_drop, hsslen]
    omega

theorem annealOnly_generateILPOptimizedTeams_spec (players : List Player)
    (t : Nat) (config : AlgorithmConfig) (sr sw : Nat)
    (choices : Nat → AnnealChoice) (capR capW : Nat) (r0 w0 : List TeamPlayer)
    (hgbt : generateBalancedTeams players t sr sw = Except.ok (r0, w0)) :
    ∃ res, AnnealOnly.generateILPOptimizedTeams players t config sr sw choices capR capW
        = Except.ok res
      ∧ res.metadata.algorithm = "ilp-solver"
      ∧ res.redTeam.length = r0.length
      ∧ res.whiteTeam.length = w0.length := by
  unfold AnnealOnly.generateILPOptimizedTeams
  dsimp only
  obtain ⟨res, hres, _, hrl, hwl, _, _⟩ :=
    generateConstraintOptimizedTeams_ok_spec players t
      { config with maxIterations := some 1000, temperature := some 15,
                    coolingRate := some (99/100) }
      sr sw choices capR capW r0 w0 hgbt
  rw [hres]
  exact ⟨_, rfl, rfl, hrl, hwl⟩

theorem foldl_add_ovr (l : List TeamPlayer) :
    ∀ c : ℚ, l.foldl (fun sum p => sum + p.ovr) c = c + (l.map (fun p => p.ovr)).sum := by
  induction l with
  | nil => intro c; simp
  | cons p l ih =>
      intro c
      rw [List.foldl_cons, ih, List.map_cons, List.sum_cons]
      ring

theorem sumOvr_eq (l : List TeamPlayer) :
    sumOvr l = (l.map (fun p => p.ovr)).sum := by
  unfold sumOvr
  rw [foldl_add_ovr]
  ring

theorem sum_set_rat (L : List ℚ) (n : Nat) (a : ℚ) (h : n < L.length) :
    (L.set n a).sum = L.sum - L.getD n 0 + a := by
  rw [List.sum_set, if_pos h]
  have hsplit : (List.take n L).sum + (List.drop n L).sum = L.sum :=
    List.sum_take_add_sum_drop L n
  have hdrop : L[n] :: List.drop (n + 1) L = List.drop n L :=
    List.getElem_cons_drop L n h
  have : (List.drop n L).sum = L[n] + (List.drop (n + 1) L).sum := by
    rw [← hdrop, List.sum_cons]
  rw [List.getD_eq_getElem L 0 h]
  linarith [hsplit, this]

theorem sumOvr_set (l : List TeamPlayer) (i : Nat) (a : TeamPlayer)
    (h : i < l.length) :
    sumOvr (l.set i a) = sumOvr l - (l.getD i default).ovr + a.ovr := by
  rw [sumOvr_eq, sumOvr_eq, List.map_set, sum_set_rat _ i _ (by simpa using h)]
  congr 1
  congr 1
  have := List.getD_map l default (f := fun p : TeamPlayer => p.ovr) (n := i)
  rw [← this]
  rfl

theorem findSwapInner_none_spec (ro wo cd : ℚ) (rp : TeamPlayer) :
    ∀ (j : Nat) (ws : List TeamPlayer),
    findSwapInner ro wo cd rp j ws = none →
    ∀ wp ∈ ws, ¬(swapGap ro wo rp wp < cd) := by
  intro j ws
  induction ws generalizing j with
  | nil => intro _ wp hwp; exact absurd hwp (List.not_mem_nil wp)
  | cons wp0 rest ih =>
      intro h wp hwp
      rw [findSwapInner] at h
      split at h
      · exact Option.noConfusion h
      · rename_i hcond
        cases List.mem_cons.mp hwp with
        | inl heq => rw [heq]; simpa [swapGap] using hcond
        | inr hmem => exact ih (j + 1) h wp hmem

theorem findSwapInner_some_spec (ro wo cd : ℚ) (rp : TeamPlayer) :
    ∀ (j k : Nat) (ws : List TeamPlayer),
    findSwapInner ro wo cd rp j ws = some k →
    j ≤ k ∧ k - j < ws.length
    ∧ swapGap ro wo rp (ws.getD (k - j) default) < cd
    ∧ ∀ m < k - j, ¬(swapGap ro wo rp (ws.getD m default) < cd) := by
  intro j k ws
  induction ws generalizing j with
  | nil => intro h; exact Option.noConfusion h
  | cons wp0 rest ih =>
      intro h
      rw [findSwapInner] at h
      split at h
      · rename_i hcond
        cases h
        refine ⟨le_refl _, by simp, ?_, ?_⟩
        · simpa [swapGap, Nat.sub_self] using hcond
        · intro m hm
          omega
      · rename_i hcond
        obtain ⟨h1, h2, h3, h4⟩ := ih (j + 1) h
        have hkj : 1 ≤ k - j := by omega
        refine ⟨by omega, by simp; omega, ?_, ?_⟩
        · obtain ⟨n, hn⟩ : ∃ n, k - j = n + 1 := ⟨k - j - 1, by omega⟩
          rw [hn, List.getD_cons_succ]
          have : n = k - (j + 1) := by omega
          rw [this]
          exact h3
        · intro m hm
          cases m with
          | zero =>
              rw [List.getD_cons_zero]
              simpa [swapGap] using hcond
          | succ m' =>
              rw [List.getD_cons_succ]
              have : m' < k - (j + 1) := by omega
              exact h4 m' this

theorem findSwapOuter_none_spec (ro wo cd : ℚ) (white : List TeamPlayer) :
    ∀ (i : Nat) (rs : List TeamPlayer),
    findSwapOuter ro wo cd white i rs = none →
    ∀ rp ∈ rs, ∀ wp ∈ white, ¬(swapGap ro wo rp wp < cd) := by
  intro i rs
  induction rs generalizing i with
  | nil => intro _ rp hrp; exact absurd hrp (List.not_mem_nil rp)
  | cons rp0 rest ih =>
      intro h rp hrp wp hwp
      rw [findSwapOuter] at h
      split at h
      · exact Option.noConfusion h
      · rename_i hinner
        cases List.mem_cons.mp hrp with
        | inl heq =>
            rw [heq]
            exact findSwapInner_none_spec ro wo cd rp0 0 white hinner wp hwp
        | inr hmem => exact ih (i + 1) h rp hmem wp hwp

theorem findSwapOuter_some_spec (ro wo cd : ℚ) (white : List TeamPlayer) :
    ∀ (i a b : Nat) (rs : List TeamPlayer),
    findSwapOuter ro wo cd white i rs = some (a, b) →
    i ≤ a ∧ a - i < rs.length ∧ b < white.length
    ∧ swapGap ro wo (rs.getD (a - i) default) (white.getD b default) < cd
    ∧ (∀ m < a - i, ∀ wp ∈ white, ¬(swapGap ro wo (rs.getD m default) wp < cd))
    ∧ (∀ j' < b, ¬(swapGap ro wo (rs.getD (a - i) default) (white.getD j' default) < cd)) := by
  intro i a b rs
  induction rs generalizing i with
  | nil => intro h; exact Option.noConfusion h
  | cons rp0 rest ih =>
      intro h
      rw [findSwapOuter] at h
      split at h
      · rename_i jj hjj
        rw [Option.some.injEq, Prod.mk.injEq] at h
        obtain ⟨ha, hb⟩ := h
        rw [← ha, ← hb]
        obtain ⟨_, hjlt, hgap, hfirst⟩ := findSwapInner_some_spec ro wo cd rp0 0 jj white hjj
        simp only [Nat.sub_zero] at hjlt hgap hfirst
        refine ⟨le_refl _, by simp, hjlt, ?_, ?_, ?_⟩
        · simpa [Nat.sub_self, List.getD_cons_zero] using hgap
        · intro m hm
          omega
        · intro j' hj'
          rw [Nat.sub_self, List.getD_cons_zero]
          exact hfirst j' hj'
      · rename_i hinner
        obtain ⟨h1, h2, h3, h4, h5, h6⟩ := ih (i + 1) h
        have hai : 1 ≤ a - i := by omega
        obtain ⟨n, hn⟩ : ∃ n, a - i = n + 1 := ⟨a - i - 1, by omega⟩
        have hneq : n = a - (i + 1) := by omega
        refine ⟨by omega, by simp; omega, h3, ?_, ?_, ?_⟩
        · rw [hn, List.getD_cons_succ, hneq]
          exact h4
        · intro m hm wp hwp
          cases m with
          | zero =>
              rw [List.getD_cons_zero]
              exact findSwapInner_none_spec ro wo cd rp0 0 white hinner wp hwp
          | succ m' =>
              rw [List.getD_cons_succ]
              exact h5 m' (by omega) wp hwp
        · intro j' hj'
          rw [hn, List.getD_cons_succ, hneq]
          exact h6 j' hj'

theorem findImprovingPair_none_spec (red white : List TeamPlayer)
    (h : findImprovingPair red white = none) :
    ∀ rp ∈ red, ∀ wp ∈ white,
      ¬(swapGap (sumOvr red) (sumOvr white) rp wp < |sumOvr red - sumOvr white|) := by
  unfold findImprovingPair at h
  exact findSwapOuter_none_spec _ _ _ white 0 red h

theorem findImprovingPair_some_spec (red white : List TeamPlayer) (i j : Nat)
    (h : findImprovingPair red white = some (i, j)) :
    i < red.length ∧ j < white.length
    ∧ swapGap (sumOvr red) (sumOvr white) (red.getD i default) (white.getD j default)
        < |sumOvr red - sumOvr white|
    ∧ (∀ i' < i, ∀ wp ∈ white,
        ¬(swapGap (sumOvr red) (sumOvr white) (red.getD i' default) wp
            < |sumOvr red - sumOvr white|))
    ∧ (∀ j' < j, ¬(swapGap (sumOvr red) (sumOvr white) (red.getD i default)
        (white.getD j' default) < |sumOvr red - sumOvr white|)) := by
  unfold findImprovingPair at h
  obtain ⟨h1, h2, h3, h4, h5, h6⟩ := findSwapOuter_some_spec _ _ _ white 0 i j red h
  simp only [Nat.sub_zero] at h2 h4 h5 h6
  exact ⟨h2, h3, h4, h5, h6⟩

theorem swapAt_gap_lt (red white : List TeamPlayer) (i j : Nat)
    (hi : i < red.length) (hj : j < white.length)
    (himp : swapGap (sumOvr red) (sumOvr white) (red.getD i default)
        (white.getD j default) < |sumOvr red - sumOvr white|) :
    |sumOvr (swapAt red white i j).1 - sumOvr (swapAt red white i j).2|
      < |sumOvr red - sumOvr white| := by
  unfold swapAt
  simp only
  rw [sumOvr_set red i _ hi, sumOvr_set white j _ hj]
  unfold swapGap at himp
  convert himp using 2

theorem fineTune_gap_le (fuel : Nat) :
    ∀ rw : List TeamPlayer × List TeamPlayer,
    |sumOvr (fineTune fuel rw).1 - sumOvr (fineTune fuel rw).2|
      ≤ |sumOvr rw.1 - sumOvr rw.2| := by
  induction fuel with
  | zero => intro rw; exact le_refl _
  | succ fuel ih =>
      intro ⟨red, white⟩
      rw [fineTune]
      match h : findImprovingPair red white with
      | none => exact le_refl _
      | some (i, j) =>
          obtain ⟨hi, hj, himp, _, _⟩ := findImprovingPair_some_spec red white i j h
          have hlt := swapAt_gap_lt red white i j hi hj himp
          exact le_trans (ih (swapAt red white i j)) (le_of_lt hlt)

theorem rejectionDraw_const_none (fuel : Nat) :
    ∀ k : Nat, rejectionDraw fuel (fun _ => 0) k 0 2 = none := by
  induction fuel with
  | zero => intro k; rfl
  | succ fuel ih =>
      intro k
      rw [rejectionDraw]
      rw [if_pos (by exact ⟨rfl, by omega⟩)]
      exact ih (k + 1)

theorem rejectionDraw_isSome_of_distinct (draws : Nat → Nat) (firstIdx len : Nat) :
    ∀ (fuel k : Nat), (∃ m, k ≤ m ∧ m < k + fuel ∧ draws m ≠ firstIdx) →
    (rejectionDraw fuel draws k firstIdx len).isSome = true := by
  intro fuel
  induction fuel with
  | zero => intro k ⟨m, h1, h2, _⟩; omega
  | succ fuel ih =>
      intro k ⟨m, h1, h2, h3⟩
      rw [rejectionDraw]
      split
      · rename_i hcond
        refine ih (k + 1) ⟨m, ?_, by omega, h3⟩
        rcases Nat.eq_or_lt_of_le h1 with heq | hlt
        · exfalso; rw [← heq] at h3; exact h3 hcond.1
        · omega
      · simp

theorem rejectionDraw_some_spec (draws : Nat → Nat) (firstIdx len : Nat)
    (hdraws : ∀ n, draws n < len) :
    ∀ (fuel k v : Nat), rejectionDraw fuel draws k firstIdx len = some v →
    v < len ∧ (1 < len → v ≠ firstIdx) := by
  intro fuel
  induction fuel with
  | zero => intro k v h; exact Option.noConfusion h
  | succ fuel ih =>
      intro k v h
      rw [rejectionDraw] at h
      split at h
      · exact ih (k + 1) v h
      · rename_i hcond
        rw [Option.some.injEq] at h
        subst h
        refine ⟨hdraws k, ?_⟩
        intro hlen heq
        exact hcond ⟨heq, hlen⟩

theorem generateBalancedTeams_insufficient (players : List Player) (t rc wc : Nat)
    (h : players.length < t * 2) :
    generateBalancedTeams players t rc wc
      = Except.error s!"Need at least {t * 2} players for {t}v{t}" := by
  unfold generateBalancedTeams
  rw [if_pos h]

theorem generateBalancedTeams_ok_exists (players : List Player) (t rc wc : Nat)
    (h : ¬(players.length < t * 2)) :
    ∃ pr, generateBalancedTeams players t rc wc = Except.ok pr := by
  unfold generateBalancedTeams
  rw [if_neg h]
  exact ⟨_, rfl⟩

/-- Inversion for a successful Annealed Optimizer run: the seed
succeeded, both returned teams have `teamSize` players, the metadata is
tagged `constraint-opt`, the reported best score never exceeds the
seed's fairness score, and at most `maxIterations` iterations ran. -/
theorem generateConstraintOptimizedTeams_ok_inv (players : List Player)
    (t : Nat) (config : AlgorithmConfig) (sr sw : Nat)
    (choices : Nat → AnnealChoice) (capR capW : Nat) (res : TeamGenerationResult)
    (hok : generateConstraintOptimizedTeams players t config sr sw choices capR capW
      = Except.ok res) :
    ∃ r0 w0, generateBalancedTeams players t sr sw = Except.ok (r0, w0)
      ∧ r0.length = t ∧ w0.length = t
      ∧ res.redTeam.length = t ∧ res.whiteTeam.length = t
      ∧ res.metadata.algorithm = "constraint-opt"
      ∧ res.metadata.fairnessScore
          ≤ (calculateFairnessScore r0 w0 (mergeConfig config).toConfig).1
      ∧ ∃ n, res.metadata.iterations = some n
          ∧ n ≤ (mergeConfig config).maxIterations := by
  cases hgbt : generateBalancedTeams players t sr sw with
  | error e =>
      rw [generateConstraintOptimizedTeams_error players t config sr sw choices
        capR capW e hgbt] at hok
      exact Except.noConfusion hok
  | ok pr =>
      obtain ⟨r0, w0⟩ := pr
      obtain ⟨_, hr0, hw0, _⟩ := generateBalancedTeams_ok_spec players t sr sw r0 w0 hgbt
      obtain ⟨res', hres', halg, hrl, hwl, hsc, hit⟩ :=
        generateConstraintOptimizedTeams_ok_spec players t config sr sw choices
          capR capW r0 w0 hgbt
      rw [hres', Except.ok.injEq] at hok
      subst hok
      exact ⟨r0, w0, rfl, hr0, hw0, hr0 ▸ hrl, hw0 ▸ hwl, halg, hsc, hit⟩

/-- Claim C1. For every player pool with at least `teamSize * 2` players,
every configuration and every outcome of the random choices (and, for
the solver-backed variant, every solver outcome), each of the three
generation operations succeeds and returns teams of exactly `teamSize`
players each: the Draft Allocator `generateBalancedTeams`, the Annealed
Optimizer `generateConstraintOptimizedTeams`, and
`generateILPOptimizedTeams` in both its shipped versions (solver-backed
with fallback, and the annealing-only relabel). -/
theorem claim_team_size_invariant (players : List Player) (teamSize : Nat)
    (config : AlgorithmConfig) (rc wc sr sw capR capW : Nat)
    (choices fbChoices : Nat → AnnealChoice) (outcome : SolverOutcome)
    (icr icw fsr fsw fcr fcw : Nat)
    (hpool : teamSize * 2 ≤ players.length) :
    (∃ r w, generateBalancedTeams players teamSize rc wc = Except.ok (r, w)
      ∧ r.length = teamSize ∧ w.length = teamSize)
    ∧ (∃ res, generateConstraintOptimizedTeams players teamSize config sr sw
        choices capR capW = Except.ok res
      ∧ res.redTeam.length = teamSize ∧ res.whiteTeam.length = teamSize)
    ∧ (∃ res, generateILPOptimizedTeams players teamSize config outcome icr icw
        fsr fsw fbChoices fcr fcw = Except.ok res
      ∧ res.redTeam.length = teamSize ∧ res.whiteTeam.length = teamSize)
    ∧ (∃ res, AnnealOnly.generateILPOptimizedTeams players teamSize config sr sw
        choices capR capW = Except.ok res
      ∧ res.redTeam.length = teamSize ∧ res.whiteTeam.length = teamSize) := by
  have hgcot : ∀ (cfg : AlgorithmConfig) (a b c d : Nat)
      (ch : Nat → AnnealChoice),
      ∃ res, generateConstraintOptimizedTeams players teamSize cfg a b ch c d
          = Except.ok res
        ∧ res.redTeam.length = teamSize ∧ res.whiteTeam.length = teamSize := by
    intro cfg a b c d ch
    obtain ⟨pr, hpr⟩ := generateBalancedTeams_ok_exists players teamSize a b (by omega)
    obtain ⟨r0, w0⟩ := pr
    obtain ⟨_, hr0, hw0, _⟩ := generateBalancedTeams_ok_spec players teamSize a b r0 w0 hpr
    obtain ⟨res, hres, _, hrl, hwl, _⟩ :=
      generateConstraintOptimizedTeams_ok_spec players teamSize cfg a b ch c d r0 w0 hpr
    exact ⟨res, hres, by omega, by omega⟩
  refine ⟨?_, hgcot config sr sw capR capW choices, ?_, ?_⟩
  · obtain ⟨pr, hpr⟩ := generateBalancedTeams_ok_exists players teamSize rc wc (by omega)
    obtain ⟨r, w⟩ := pr
    obtain ⟨_, hr, hw, _⟩ := generateBalancedTeams_ok_spec players teamSize rc wc r w hpr
    exact ⟨r, w, hpr, hr, hw⟩
  · cases outcome with
    | success assignment =>
        obtain ⟨res, hres, _, hrl, hwl⟩ :=
          generateILPOptimizedTeams_success_spec players teamSize config assignment
            icr icw fsr fsw fcr fcw fbChoices hpool
        exact ⟨res, hres, hrl, hwl⟩
    | infeasible =>
        rw [generateILPOptimizedTeams_fallback players teamSize config icr icw
          fsr fsw fcr fcw fbChoices _ (Or.inl rfl)]
        exact hgcot config fsr fsw fcr fcw fbChoices
    | solverFailure =>
        rw [generateILPOptimizedTeams_fallback players teamSize config icr icw
          fsr fsw fcr fcw fbChoices _ (Or.inr rfl)]
        exact hgcot config fsr fsw fcr fcw fbChoices
  · obtain ⟨pr, hpr⟩ := generateBalancedTeams_ok_exists players teamSize sr sw (by omega)
    obtain ⟨r0, w0⟩ := pr
    obtain ⟨_, hr0, hw0, _⟩ := generateBalancedTeams_ok_spec players teamSize sr sw r0 w0 hpr
    obtain ⟨res, hres, _, hrl, hwl⟩ :=
      annealOnly_generateILPOptimizedTeams_spec players teamSize config sr sw
        choices capR capW r0 w0 hpr
    exact ⟨res, hres, by omega, by omega⟩

/-- Claim C5. For equal-size rosters, `calculateFairnessScore` returns the
weighted sum of the seven non-negative metrics of the specification —
the five absolute attribute-sum differences, the top-heaviness metric
with `k = min(3, floor(teamSize / 2))`, and the total position-minimum
shortfall over both teams — with the default weight vector
(ovr 1.0, fitness 0.8, attack 0.6, defence 0.6, ballUse 0.5,
topHeaviness 0.7, positionViolation 10.0) shallow-merged field-by-field
with the caller's overrides. -/
theorem claim_fairness_score_formula (teamSize : Nat)
    (redTeam whiteTeam : List TeamPlayer) (config : AlgorithmConfig)
    (hred : redTeam.length = teamSize) (hwhite : whiteTeam.length = teamSize) :
    (calculateFairnessScore redTeam whiteTeam config).1
      = |sumAttr redTeam (·.ovr) - sumAttr whiteTeam (·.ovr)|
          * (mergeWeights config.weights).ovr
        + |sumAttr redTeam (·.fitness) - sumAttr whiteTeam (·.fitness)|
          * (mergeWeights config.weights).fitness
        + |sumAttr redTeam (·.attack) - sumAttr whiteTeam (·.attack)|
          * (mergeWeights config.weights).attack
        + |sumAttr redTeam (·.defence) - sumAttr whiteTeam (·.defence)|
          * (mergeWeights config.weights).defence
        + |sumAttr redTeam (·.ballUse) - sumAttr whiteTeam (·.ballUse)|
          * (mergeWeights config.weights).ballUse
        + |topSumSpec redTeam (min 3 (teamSize / 2))
            - topSumSpec whiteTeam (min 3 (teamSize / 2))|
          * (mergeWeights config.weights).topHeaviness
        + ((positionShortfallSpec redTeam (mergeMinPositions config.minPositions)
            + positionShortfallSpec whiteTeam (mergeMinPositions config.minPositions) : Nat) : ℚ)
          * (mergeWeights config.weights).positionViolation
    ∧ mergeWeights none = defaultWeights
    ∧ (0 ≤ (calculateFairnessScore redTeam whiteTeam config).2.ovrDiff
        ∧ 0 ≤ (calculateFairnessScore redTeam whiteTeam config).2.fitnessDiff
        ∧ 0 ≤ (calculateFairnessScore redTeam whiteTeam config).2.attackDiff
        ∧ 0 ≤ (calculateFairnessScore redTeam whiteTeam config).2.defenceDiff
        ∧ 0 ≤ (calculateFairnessScore redTeam whiteTeam config).2.ballUseDiff
        ∧ 0 ≤ (calculateFairnessScore redTeam whiteTeam config).2.topHeavinessDiff) := by
  refine ⟨?_, by rfl, ?_⟩
  · unfold calculateFairnessScore calculateTopHeaviness countPositionViolations
    unfold topSumSpec positionShortfallSpec
    dsimp only
    rw [hred]
    have hsf : ∀ (m c : Nat), (if c < m then m - c else 0) = m - c := by
      intro m c
      split
      · rfl
      · omega
    rw [hsf, hsf, hsf, hsf, hsf, hsf]
  · unfold calculateFairnessScore calculateTopHeaviness
    dsimp only
    refine ⟨abs_nonneg _, abs_nonneg _, abs_nonneg _, abs_nonneg _, abs_nonneg _,
      abs_nonneg _⟩

/-- Claim C6. `generateBalancedTeams` raises its insufficient-players
error exactly when `players.length < teamSize * 2`; the Annealed
Optimizer, which seeds from it, propagates that same error value
(hard failure, no fallback result), and both succeed otherwise. -/
theorem claim_insufficient_players_error (players : List Player) (teamSize : Nat)
    (config : AlgorithmConfig) (rc wc sr sw capR capW : Nat)
    (choices : Nat → AnnealChoice) :
    (players.length < teamSize * 2 →
      generateBalancedTeams players teamSize rc wc
          = Except.error s!"Need at least {teamSize * 2} players for {teamSize}v{teamSize}"
      ∧ generateConstraintOptimizedTeams players teamSize config sr sw choices capR capW
          = Except.error s!"Need at least {teamSize * 2} players for {teamSize}v{teamSize}")
    ∧ (teamSize * 2 ≤ players.length →
      (∃ pr, generateBalancedTeams players teamSize rc wc = Except.ok pr)
      ∧ ∃ res, generateConstraintOptimizedTeams players teamSize config sr sw
          choices capR capW = Except.ok res) := by
  constructor
  · intro hlt
    have hgbt := generateBalancedTeams_insufficient players teamSize rc wc hlt
    have hgbt' := generateBalancedTeams_insufficient players teamSize sr sw hlt
    exact ⟨hgbt, generateConstraintOptimizedTeams_error players teamSize config
      sr sw choices capR capW _ hgbt'⟩
  · intro hge
    obtain ⟨pr, hpr⟩ := generateBalancedTeams_ok_exists players teamSize rc wc (by omega)
    obtain ⟨pr', hpr'⟩ := generateBalancedTeams_ok_exists players teamSize sr sw (by omega)
    obtain ⟨r0, w0⟩ := pr'
    obtain ⟨res, hres, _⟩ := generateConstraintOptimizedTeams_ok_spec players teamSize
      config sr sw choices capR capW r0 w0 hpr'
    exact ⟨⟨pr, hpr⟩, ⟨res, hres⟩⟩

/-- Claim C7. For every pool, configuration and outcome of the random
choices, when the Annealed Optimizer succeeds, the `fairnessScore` it
reports in its metadata (the best-ever snapshot's score) is at most the
fairness score of its Draft Allocator seed, evaluated with the same
merged configuration: the optimizer never returns a split scoring worse
than its starting point. -/
theorem claim_annealing_convergence (players : List Player) (teamSize : Nat)
    (config : AlgorithmConfig) (sr sw capR capW : Nat)
    (choices : Nat → AnnealChoice)
    (hpool : teamSize * 2 ≤ players.length) :
    ∃ r0 w0 res,
      generateBalancedTeams players teamSize sr sw = Except.ok (r0, w0)
      ∧ generateConstraintOptimizedTeams players teamSize config sr sw choices
          capR capW = Except.ok res
      ∧ res.metadata.fairnessScore
          ≤ (calculateFairnessScore r0 w0 (mergeConfig config).toConfig).1 := by
  obtain ⟨pr, hseed⟩ := generateBalancedTeams_ok_exists players teamSize sr sw (by omega)
  obtain ⟨r0, w0⟩ := pr
  obtain ⟨res, hres, _, _, _, hsc, _⟩ :=
    generateConstraintOptimizedTeams_ok_spec players teamSize config sr sw choices
      capR capW r0 w0 hseed
  exact ⟨r0, w0, res, hseed, hres, hsc⟩

/-- Structural inversion of a successful Draft Allocator run: the
returned pair is exactly `applyTeamConstraints` of the captained,
fine-tuned draft, whose two sides have `teamSize` players each and
whose union counts (for captain-flag-insensitive predicates) agree with
the selected top `teamSize * 2` players of the pool. -/
theorem generateBalancedTeams_structure (players : List Player) (t rc wc : Nat)
    (r w : List TeamPlayer)
    (hok : generateBalancedTeams players t rc wc = Except.ok (r, w)) :
    ∃ redT whiteT, applyTeamConstraints redT whiteT = (r, w)
      ∧ redT.length = t ∧ whiteT.length = t
      ∧ ∀ p : TeamPlayer → Bool, (∀ x b, p { x with isCaptain := b } = p x) →
          redT.countP p + whiteT.countP p
            = ((sortByOvrDesc players).take (t * 2)).countP (fun q => p (mkTeamPlayer q)) := by
  by_cases hcond : players.length < t * 2
  · exfalso
    unfold generateBalancedTeams at hok
    rw [if_pos hcond] at hok
    exact Except.noConfusion hok
  unfold generateBalancedTeams at hok
  rw [if_neg hcond] at hok
  dsimp only at hok
  set sel := (sortByOvrDesc players).take (t * 2) with hsel
  set defs := sel.filter (fun p => p.position = Position.DEF) with hdefs
  set atts := sel.filter (fun p => p.position = Position.ATT) with hatts
  set alrs := sel.filter (fun p => p.position = Position.ALR) with halrs
  set rw0 := distributePosition t defs ([], []) with hrw0
  set rw1 := distributePosition t atts rw0 with hrw1
  set rw2 := distributePosition t alrs rw1 with hrw2
  set rw3 := moveExcess t rw2.1 rw2.2 with hrw3
  set moved := moveExcess t rw3.2 rw3.1 with hmoved
  set tuned := fineTune 100 (moved.2, moved.1) with htuned
  set redT := setCaptain tuned.1 rc with hredT
  set whiteT := setCaptain tuned.2 wc with hwhiteT
  have hpair : applyTeamConstraints redT whiteT = (r, w) := by
    have := hok
    rw [Except.ok.injEq] at this
    exact this
  have hsellen : sel.length = t * 2 := by
    rw [hsel, List.length_take_of_le]
    rw [sortByOvrDesc_length]
    omega
  have hfilters : (defs ++ (atts ++ alrs)).Perm sel := threeFilterPerm sel
  have hbucketlen : defs.length + atts.length + alrs.length = t * 2 := by
    have := hfilters.length_eq
    simp only [List.length_append] at this
    omega
  have hd0 := distributePosition_perm t defs (([] : List TeamPlayer), ([] : List TeamPlayer))
  have hd1 := distributePosition_perm t atts rw0
  have hd2 := distributePosition_perm t alrs rw1
  have hunion2 : (rw2.1 ++ rw2.2).Perm
      ((defs ++ (atts ++ alrs)).map mkTeamPlayer) := by
    refine hd2.trans ?_
    have h1 : (rw1.1 ++ rw1.2 ++ alrs.map mkTeamPlayer).Perm
        (rw0.1 ++ rw0.2 ++ atts.map mkTeamPlayer ++ alrs.map mkTeamPlayer) :=
      hd1.append_right _
    refine h1.trans ?_
    have h2 : (rw0.1 ++ rw0.2 ++ atts.map mkTeamPlayer ++ alrs.map mkTeamPlayer).Perm
        (([] : List TeamPlayer) ++ [] ++ defs.map mkTeamPlayer
          ++ atts.map mkTeamPlayer ++ alrs.map mkTeamPlayer) :=
      (hd0.append_right _).append_right _
    refine h2.trans ?_
    simp [List.append_assoc]
  have hlen2 : rw2.1.length + rw2.2.length = t * 2 := by
    have := hunion2.length_eq
    simp only [List.length_append, List.length_map] at this
    omega
  have hm3 := moveExcess_length t rw2.1 rw2.2
  rw [← hrw3] at hm3
  have hm4 := moveExcess_length t rw3.2 rw3.1
  rw [← hmoved] at hm4
  have hlen4 : moved.2.length = t ∧ moved.1.length = t := by
    constructor <;> omega
  have hft := fineTune_length 100 (moved.2, moved.1)
  have htl : tuned.1.length = t ∧ tuned.2.length = t := by
    rw [htuned]
    constructor
    · rw [hft.1]; exact hlen4.1
    · rw [hft.2]; exact hlen4.2
  refine ⟨redT, whiteT, hpair, ?_, ?_, ?_⟩
  · rw [hredT, setCaptain_length]; exact htl.1
  · rw [hwhiteT, setCaptain_length]; exact htl.2
  · intro p hp
    rw [hredT, hwhiteT, setCaptain_countP p hp, setCaptain_countP p hp]
    have hftc := fineTune_countP p 100 (moved.2, moved.1)
    rw [htuned, hftc]
    have hm3c := moveExcess_perm t rw2.1 rw2.2
    rw [← hrw3] at hm3c
    have hm4c := moveExcess_perm t rw3.2 rw3.1
    rw [← hmoved] at hm4c
    have hcount4 : moved.2.countP p + moved.1.countP p
        = rw2.1.countP p + rw2.2.countP p := by
      have c4 := hm4c.countP_eq p
      have c3 := hm3c.countP_eq p
      simp only [List.countP_append] at c4 c3
      omega
    dsimp only
    rw [hcount4]
    have := hunion2.countP_eq p
    simp only [List.countP_append] at this
    rw [this]
    have := (hfilters.map mkTeamPlayer).countP_eq p
    rw [this, List.countP_map]
    rfl

/-- Claim C3, amended. Every successful result of
`generateBalancedTeams` is exactly `applyTeamConstraints` applied to
the captained draft; and provided the pool holds at most one player
whose lowercased name is `jay` and at most one whose lowercased name is
`dman`, no player of the returned red team is named `jay`
(case-insensitively), and the `jay`- and `dman`-named players never
share a returned team (under the uniqueness hypothesis, the original
"other team has a player named neither" proviso holds automatically
whenever it is needed). -/
theorem claim_team_constraints_amended (players : List Player) (teamSize : Nat)
    (rc wc : Nat)
    (hpool : teamSize * 2 ≤ players.length)
    (hA : players.countP (fun q => lowerName q.name == "jay") ≤ 1)
    (hB : players.countP (fun q => lowerName q.name == "dman") ≤ 1) :
    ∃ r w, generateBalancedTeams players teamSize rc wc = Except.ok (r, w)
    ∧ (∃ redT whiteT, applyTeamConstraints redT whiteT = (r, w))
    ∧ r.countP matchA = 0
    ∧ ¬(0 < r.countP matchA ∧ 0 < r.countP matchB)
    ∧ ¬(0 < w.countP matchA ∧ 0 < w.countP matchB) := by
  obtain ⟨pr, hok⟩ := generateBalancedTeams_ok_exists players teamSize rc wc (by omega)
  obtain ⟨r, w⟩ := pr
  refine ⟨r, w, hok, ?_⟩
  obtain ⟨redT, whiteT, hatc, hrt, hwt, hcount⟩ :=
    generateBalancedTeams_structure players teamSize rc wc r w hok
  have hcapA : ∀ (x : TeamPlayer) (b : Bool),
      matchA { x with isCaptain := b } = matchA x := by
    intro x b; rfl
  have hcapB : ∀ (x : TeamPlayer) (b : Bool),
      matchB { x with isCaptain := b } = matchB x := by
    intro x b; rfl
  have hselA : ((sortByOvrDesc players).take (teamSize * 2)).countP
      (fun q => matchA (mkTeamPlayer q)) ≤ 1 := by
    refine le_trans (le_trans (List.Sublist.countP_le _ (List.take_sublist _ _)) ?_) hA
    rw [(sortByOvrDesc_perm players).countP_eq]
    exact le_of_eq (List.countP_congr fun a _ => Iff.rfl)
  have hselB : ((sortByOvrDesc players).take (teamSize * 2)).countP
      (fun q => matchB (mkTeamPlayer q)) ≤ 1 := by
    refine le_trans (le_trans (List.Sublist.countP_le _ (List.take_sublist _ _)) ?_) hB
    rw [(sortByOvrDesc_perm players).countP_eq]
    exact le_of_eq (List.countP_congr fun a _ => Iff.rfl)
  have huA : (redT ++ whiteT).countP matchA ≤ 1 := by
    rw [List.countP_append, hcount matchA hcapA]
    exact hselA
  have huB : (redT ++ whiteT).countP matchB ≤ 1 := by
    rw [List.countP_append, hcount matchB hcapB]
    exact hselB
  have hspec := applyTeamConstraints_spec redT whiteT huA huB (by rw [hrt, hwt])
  rw [hatc] at hspec
  refine ⟨⟨redT, whiteT, hatc⟩, hspec.1, ?_, hspec.2⟩
  intro ⟨h1, _⟩
  rw [hspec.1] at h1
  exact absurd h1 (by omega)

/-- Claim C8, amended. Provided the pool holds at least `teamSize * 2`
players (so the fallback's own precondition is met): whenever the
external solver reports infeasibility or throws, the solver-backed
`generateILPOptimizedTeams` returns exactly the Annealed Optimizer's
result computed on the full (untruncated) player set with the caller's
original config, carrying the fallback tag `constraint-opt` rather than
`ilp-solver`, and no error reaches the caller; on solver success the
returned tag is `ilp-solver`. -/
theorem claim_ilp_fallback_amended (players : List Player) (teamSize : Nat)
    (config : AlgorithmConfig) (icr icw fsr fsw fcr fcw : Nat)
    (fbChoices : Nat → AnnealChoice)
    (hpool : teamSize * 2 ≤ players.length) :
    (∀ outcome, outcome = SolverOutcome.infeasible
        ∨ outcome = SolverOutcome.solverFailure →
      generateILPOptimizedTeams players teamSize config outcome icr icw
          fsr fsw fbChoices fcr fcw
        = generateConstraintOptimizedTeams players teamSize config fsr fsw
            fbChoices fcr fcw
      ∧ ∃ res, generateILPOptimizedTeams players teamSize config outcome icr icw
          fsr fsw fbChoices fcr fcw = Except.ok res
        ∧ res.metadata.algorithm = "constraint-opt")
    ∧ (∀ assignment, ∃ res,
        generateILPOptimizedTeams players teamSize config
          (SolverOutcome.success assignment) icr icw fsr fsw fbChoices fcr fcw
          = Except.ok res
        ∧ res.metadata.algorithm = "ilp-solver") := by
  constructor
  · intro outcome hout
    have hfb := generateILPOptimizedTeams_fallback players teamSize config icr icw
      fsr fsw fcr fcw fbChoices outcome hout
    refine ⟨hfb, ?_⟩
    obtain ⟨pr, hpr⟩ := generateBalancedTeams_ok_exists players teamSize fsr fsw (by omega)
    obtain ⟨r0, w0⟩ := pr
    obtain ⟨res, hres, halg, _⟩ := generateConstraintOptimizedTeams_ok_spec players
      teamSize config fsr fsw fbChoices fcr fcw r0 w0 hpr
    exact ⟨res, by rw [hfb]; exact hres, halg⟩
  · intro assignment
    obtain ⟨res, hres, halg, _⟩ := generateILPOptimizedTeams_success_spec players
      teamSize config assignment icr icw fsr fsw fcr fcw fbChoices hpool
    exact ⟨res, hres, halg⟩

/-- Claim C9. In the Draft Allocator's local-refinement phase: a swap is
performed only when it strictly reduces the absolute total-OVR gap
computed at the start of the pass; the pair swapped is the first
improving pair in scan order (no earlier red index admits any improving
partner, and no earlier white index improves with the chosen red
player) and the pass then restarts on the swapped rosters; a pass with
no improving pair leaves the rosters unchanged (the loop stops, and the
fuel bounds the passes at 100); consequently the OVR gap never
increases between consecutive passes. -/
theorem claim_refinement_monotonic (red white : List TeamPlayer) :
    (∀ i j, findImprovingPair red white = some (i, j) →
      (|sumOvr (swapAt red white i j).1 - sumOvr (swapAt red white i j).2|
          < |sumOvr red - sumOvr white|)
      ∧ (∀ i' < i, ∀ wp ∈ white,
          ¬(swapGap (sumOvr red) (sumOvr white) (red.getD i' default) wp
              < |sumOvr red - sumOvr white|))
      ∧ (∀ j' < j,
          ¬(swapGap (sumOvr red) (sumOvr white) (red.getD i default)
              (white.getD j' default) < |sumOvr red - sumOvr white|))
      ∧ ∀ fuel, fineTune (fuel + 1) (red, white) = fineTune fuel (swapAt red white i j))
    ∧ (findImprovingPair red white = none →
        ∀ fuel, fineTune fuel (red, white) = (red, white))
    ∧ (∀ fuel, |sumOvr (fineTune fuel (red, white)).1
        - sumOvr (fineTune fuel (red, white)).2| ≤ |sumOvr red - sumOvr white|) := by
  refine ⟨?_, ?_, ?_⟩
  · intro i j h
    obtain ⟨hi, hj, himp, hfirstI, hfirstJ⟩ := findImprovingPair_some_spec red white i j h
    refine ⟨swapAt_gap_lt red white i j hi hj himp, hfirstI, hfirstJ, ?_⟩
    intro fuel
    rw [fineTune, h]
  · intro h fuel
    cases fuel with
    | zero => rfl
    | succ fuel => rw [fineTune, h]
  · intro fuel
    exact fineTune_gap_le fuel (red, white)

/-- Claim C10, amended. The Annealed Optimizer's annealing loop always
terminates, performing at most `maxIterations` iterations (as reported
in its metadata), with the iteration cap and the fixed `0.01`
temperature floor as its only loop guards; and the 2-for-2
index-rejection loop of the neighbor-generation step terminates for
every draw stream that eventually produces a value different from the
first-drawn index — but not for every stream
(see the counterexample: the constant stream loops forever). -/
theorem claim_annealer_termination_amended (m : MergedConfig)
    (choices : Nat → AnnealChoice) (fuel : Nat) (s : AnnealState)
    (players : List Player) (teamSize : Nat) (config : AlgorithmConfig)
    (sr sw capR capW : Nat) (draws : Nat → Nat) (firstIdx len : Nat)
    (hpool : teamSize * 2 ≤ players.length)
    (hdraw : ∃ k, draws k ≠ firstIdx) :
    (annealLoop m choices fuel s).iterations ≤ s.iterations + fuel
    ∧ (∃ res n, generateConstraintOptimizedTeams players teamSize config sr sw
        choices capR capW = Except.ok res
      ∧ res.metadata.iterations = some n
      ∧ n ≤ (mergeConfig config).maxIterations)
    ∧ RejectionTerminates draws firstIdx len := by
  refine ⟨annealLoop_iterations_le m choices fuel s, ?_, ?_⟩
  · obtain ⟨pr, hseed⟩ := generateBalancedTeams_ok_exists players teamSize sr sw (by omega)
    obtain ⟨r0, w0⟩ := pr
    obtain ⟨res, hres, _, _, _, _, n, hit, hle⟩ :=
      generateConstraintOptimizedTeams_ok_spec players teamSize config sr sw choices
        capR capW r0 w0 hseed
    exact ⟨res, n, hres, hit, hle⟩
  · obtain ⟨k, hk⟩ := hdraw
    exact ⟨k + 1, rejectionDraw_isSome_of_distinct draws firstIdx len (k + 1) 0
      ⟨k, by omega, by omega, hk⟩⟩

/-- Claim C2, failing input. On the concrete pool
`[Jay (DEF), dman (ATT), Gamma (ALR), Delta (ALR)]` with `teamSize = 2`
and captain draws `(1, 1)`, `generateBalancedTeams` returns a red team
with TWO captains and a white team with NONE: the snake draft put `Jay`
and `dman` on the same side, the captain draws picked `dman` and
`Delta`, and the subsequent `applyTeamConstraints` swap moved the
captain `dman` across teams — so the one-captain-per-team property the
specification states (and the code's own "Assign random captains"
step intends) is broken by the constraint swap running after captain
assignment. -/
theorem claim_one_captain_failing_input :
    generateBalancedTeams [jayPlayer, dmanPlayer, gammaPlayer, deltaPlayer] 2 1 1
      = Except.ok (bugRedTeam, bugWhiteTeam)
    ∧ bugRedTeam.countP (fun p => p.isCaptain) = 2
    ∧ bugWhiteTeam.countP (fun p => p.isCaptain) = 0 := by
  refine ⟨?_, by decide, by decide⟩
  norm_num [generateBalancedTeams, sortByOvrDesc, List.insertionSort,
    List.orderedInsert, distributePosition, distribGo, distribStep, mkTeamPlayer,
    moveExcess, moveExcessGo, fineTune, findImprovingPair, findSwapOuter,
    findSwapInner, sumOvr, swapAt, setCaptain, applyTeamConstraints, matchA,
    matchB, lowerName, jayPlayer, dmanPlayer, gammaPlayer, deltaPlayer,
    bugRedTeam, bugWhiteTeam]
  decide

/-- Claim C3, counterexample. With two players both named `jay`
(case-insensitively), the returned red team does contain a player named
`jay`: the final wholesale team swap of `applyTeamConstraints` cannot
clear `jay` off the red side when both teams hold one. -/
theorem claim_no_jay_on_red_counterexample :
    generateBalancedTeams [jayPlayer, jayTwoPlayer] 1 0 0
      = Except.ok (cexRedTeam, cexWhiteTeam)
    ∧ 0 < cexRedTeam.countP matchA := by
  refine ⟨?_, by decide⟩
  norm_num [generateBalancedTeams, sortByOvrDesc, List.insertionSort,
    List.orderedInsert, distributePosition, distribGo, distribStep, mkTeamPlayer,
    moveExcess, moveExcessGo, fineTune, findImprovingPair, findSwapOuter,
    findSwapInner, sumOvr, swapAt, setCaptain, applyTeamConstraints, matchA,
    matchB, lowerName, jayPlayer, jayTwoPlayer, cexRedTeam, cexWhiteTeam]
  decide

/-- Claim C8, counterexample. When the solver reports infeasibility on an
empty pool with `teamSize = 1`, the fallback's own insufficient-players
precondition fails and the error propagates to the caller — contrary to
the claim that no error ever propagates on solver infeasibility. -/
theorem claim_ilp_fallback_counterexample :
    generateILPOptimizedTeams [] 1 {} SolverOutcome.infeasible 0 0 0 0
        constChoices 0 0
      = Except.error "Need at least 2 players for 1v1" := by
  decide

/-- Claim C10, counterexample. The 2-for-2 index-rejection loop of the
neighbor-generation step does NOT terminate for every sequence of
random values: on a 2-element team, if every draw returns index 0 and
the first index was 0, the loop redraws forever. -/
theorem claim_annealer_termination_counterexample :
    ¬ RejectionTerminates constZeroDraws 0 2 := by
  intro hterm
  obtain ⟨fuel, h⟩ := hterm
  unfold constZeroDraws at h
  rw [rejectionDraw_const_none fuel 0] at h
  simp at h

/-- Concrete instance of C1 on a two-player pool. -/
theorem claim_team_size_invariant_witness :
    ∃ r w, generateBalancedTeams [alphaPlayer, betaPlayer] 1 0 0 = Except.ok (r, w)
      ∧ r.length = 1 ∧ w.length = 1 :=
  (claim_team_size_invariant [alphaPlayer, betaPlayer] 1 {} 0 0 0 0 0 0
    constChoices constChoices SolverOutcome.infeasible 0 0 0 0 0 0 (by decide)).1

/-- Concrete instance of the amended C3 on a pool with a single
`jay`-named player. -/
theorem claim_team_constraints_amended_witness :
    ∃ r w, generateBalancedTeams [jayPlayer, gammaPlayer] 1 0 0 = Except.ok (r, w)
    ∧ (∃ redT whiteT, applyTeamConstraints redT whiteT = (r, w))
    ∧ r.countP matchA = 0
    ∧ ¬(0 < r.countP matchA ∧ 0 < r.countP matchB)
    ∧ ¬(0 < w.countP matchA ∧ 0 < w.countP matchB) :=
  claim_team_constraints_amended [jayPlayer, gammaPlayer] 1 0 0 (by decide)
    (by decide) (by decide)

/-- Concrete instance of C5 on singleton rosters with the default
configuration. -/
theorem claim_fairness_score_formula_witness :
    (calculateFairnessScore sampleRedResult sampleWhiteResult {}).1
      = |sumAttr sampleRedResult (·.ovr) - sumAttr sampleWhiteResult (·.ovr)|
          * (mergeWeights ({} : AlgorithmConfig).weights).ovr
        + |sumAttr sampleRedResult (·.fitness) - sumAttr sampleWhiteResult (·.fitness)|
          * (mergeWeights ({} : AlgorithmConfig).weights).fitness
        + |sumAttr sampleRedResult (·.attack) - sumAttr sampleWhiteResult (·.attack)|
          * (mergeWeights ({} : AlgorithmConfig).weights).attack
        + |sumAttr sampleRedResult (·.defence) - sumAttr sampleWhiteResult (·.defence)|
          * (mergeWeights ({} : AlgorithmConfig).weights).defence
        + |sumAttr sampleRedResult (·.ballUse) - sumAttr sampleWhiteResult (·.ballUse)|
          * (mergeWeights ({} : AlgorithmConfig).weights).ballUse
        + |topSumSpec sampleRedResult (min 3 (1 / 2))
            - topSumSpec sampleWhiteResult (min 3 (1 / 2))|
          * (mergeWeights ({} : AlgorithmConfig).weights).topHeaviness
        + ((positionShortfallSpec sampleRedResult
              (mergeMinPositions ({} : AlgorithmConfig).minPositions)
            + positionShortfallSpec sampleWhiteResult
              (mergeMinPositions ({} : AlgorithmConfig).minPositions) : Nat) : ℚ)
          * (mergeWeights ({} : AlgorithmConfig).weights).positionViolation
    ∧ mergeWeights none = defaultWeights
    ∧ (0 ≤ (calculateFairnessScore sampleRedResult sampleWhiteResult {}).2.ovrDiff
        ∧ 0 ≤ (calculateFairnessScore sampleRedResult sampleWhiteResult {}).2.fitnessDiff
        ∧ 0 ≤ (calculateFairnessScore sampleRedResult sampleWhiteResult {}).2.attackDiff
        ∧ 0 ≤ (calculateFairnessScore sampleRedResult sampleWhiteResult {}).2.defenceDiff
        ∧ 0 ≤ (calculateFairnessScore sampleRedResult sampleWhiteResult {}).2.ballUseDiff
        ∧ 0 ≤ (calculateFairnessScore sampleRedResult sampleWhiteResult {}).2.topHeavinessDiff) :=
  claim_fairness_score_formula 1 sampleRedResult sampleWhiteResult {}
    (by decide) (by decide)

/-- Concrete instance of C6 on the empty pool. -/
theorem claim_insufficient_players_error_witness :
    generateBalancedTeams [] 1 0 0
        = Except.error s!"Need at least {1 * 2} players for {1}v{1}"
    ∧ generateConstraintOptimizedTeams [] 1 {} 0 0 constChoices 0 0
        = Except.error s!"Need at least {1 * 2} players for {1}v{1}" :=
  (claim_insufficient_players_error [] 1 {} 0 0 0 0 0 0 constChoices).1 (by decide)

/-- Concrete instance of C7 on a two-player pool. -/
theorem claim_annealing_convergence_witness :
    ∃ r0 w0 res,
      generateBalancedTeams [alphaPlayer, betaPlayer] 1 0 0 = Except.ok (r0, w0)
      ∧ generateConstraintOptimizedTeams [alphaPlayer, betaPlayer] 1 zeroTempConfig
          0 0 constChoices 0 0 = Except.ok res
      ∧ res.metadata.fairnessScore
          ≤ (calculateFairnessScore r0 w0 (mergeConfig zeroTempConfig).toConfig).1 :=
  claim_annealing_convergence [alphaPlayer, betaPlayer] 1 zeroTempConfig 0 0 0 0
    constChoices (by decide)

/-- Concrete instance of the amended C8: solver infeasibility on a
sufficient pool routes to the Annealed Optimizer on the full pool. -/
theorem claim_ilp_fallback_amended_witness :
    generateILPOptimizedTeams [alphaPlayer, betaPlayer] 1 {}
        SolverOutcome.infeasible 0 0 0 0 constChoices 0 0
      = generateConstraintOptimizedTeams [alphaPlayer, betaPlayer] 1 {} 0 0
          constChoices 0 0 :=
  ((claim_ilp_fallback_amended [alphaPlayer, betaPlayer] 1 {} 0 0 0 0 0 0
    constChoices (by decide)).1 SolverOutcome.infeasible (Or.inl rfl)).1

/-- Concrete instance of C9: on singleton rosters with unequal OVRs no
swap strictly improves the gap, so the fine-tuning pass stops at once. -/
theorem claim_refinement_monotonic_witness :
    fineTune 100 (sampleRedResult, sampleWhiteResult)
      = (sampleRedResult, sampleWhiteResult) :=
  (claim_refinement_monotonic sampleRedResult sampleWhiteResult).2.1
    (by
      norm_num [findImprovingPair, findSwapOuter, findSwapInner, sumOvr,
        sampleRedResult, sampleWhiteResult, alphaPlayer, betaPlayer]) 100

/-- Concrete instance of the amended C10. -/
theorem claim_annealer_termination_amended_witness :
    (annealLoop (mergeConfig {}) constChoices 3 sampleState).iterations
        ≤ sampleState.iterations + 3
    ∧ (∃ res n, generateConstraintOptimizedTeams [alphaPlayer, betaPlayer] 1
        zeroTempConfig 0 0 constChoices 0 0 = Except.ok res
      ∧ res.metadata.iterations = some n
      ∧ n ≤ (mergeConfig zeroTempConfig).maxIterations)
    ∧ RejectionTerminates idDraws 0 2 :=
  claim_annealer_termination_amended (mergeConfig {}) constChoices 3 sampleState
    [alphaPlayer, betaPlayer] 1 zeroTempConfig 0 0 0 0 idDraws 0 2
    (by decide) ⟨1, by decide⟩
